import Mathlib

/-!
SuperTuxKart wrapper: log-line classification and the log-open retry loop.

A shallow embedding of `main.go`.

* Go `string`s are modelled as Lean `String`s (sequences of Unicode code points); the
  regular-expression engine works on the list of code points, as Go's `regexp` works on runes.
* The four patterns of `handleLogLine` are written in the syntax tree of `regexp/syntax`
  (literal, any-character-but-newline, character class, `+`, `?`, capture, end-of-text,
  concatenation) and run by a backtracking matcher.  Go documents its matches as the
  leftmost match that a backtracking search finds first, which is what `Regex.find` computes.
  Lines that are not valid UTF-8 are outside the model.
* An index out of range (a Go run-time panic) is the result `none`.
* Diagnostic logging (`log.Print`) does not influence any returned value and is left out.
-/

namespace STK

/-! ## Regular expressions (the fragment of `regexp` used by `main.go`) -/

/-- One-character sets: `.` (any character but newline) and a range such as `[0-9]`. -/
inductive CharSet where
  | anyNotNL : CharSet
  | range (lo hi : Char) : CharSet
  deriving DecidableEq, Repr

/-- Membership test of a character in a one-character set. -/
def CharSet.test : CharSet → Char → Bool
  | .anyNotNL, c => c != '\n'
  | .range lo hi, c => decide (lo ≤ c) && decide (c ≤ hi)

/-- Syntax trees of the patterns; `plus` and `quest` are the greedy `x+` and `x?` applied to a
one-character set, which is the only way the program uses them. -/
inductive Regex where
  | literal (s : List Char) : Regex
  | one (cs : CharSet) : Regex
  | plus (cs : CharSet) : Regex
  | quest (cs : CharSet) : Regex
  | endText : Regex
  | concat (r s : Regex) : Regex
  | capture (r : Regex) : Regex
  deriving Repr

/-- Greedy `x+` with continuation `k`: after one character of the set, another repetition is
preferred; the continuation is tried when no longer repetition leads to a match. -/
def plusLoop {α : Type} (p : Char → Bool) (k : List Char → Option α) : List Char → Option α
  | [] => none
  | c :: cs =>
    if p c then
      match plusLoop p k cs with
      | some r => some r
      | none => k cs
    else none

/-- Backtracking matcher in continuation-passing style.  `inp` is the unread input, `cap` the
text of capture group 1 so far, and `k` receives the unread input and the capture after the
sub-expression has matched.  Alternatives are tried in priority order. -/
def Regex.run {α : Type} :
    Regex → List Char → Option (List Char) → (List Char → Option (List Char) → Option α) → Option α
  | .literal s, inp, cap, k => if s.isPrefixOf inp then k (inp.drop s.length) cap else none
  | .one cs, inp, cap, k =>
    match inp with
    | [] => none
    | c :: rest => if cs.test c then k rest cap else none
  | .plus cs, inp, cap, k => plusLoop cs.test (fun rest => k rest cap) inp
  | .quest cs, inp, cap, k =>
    match inp with
    | [] => k [] cap
    | c :: rest =>
      if cs.test c then
        match k rest cap with
        | some r => some r
        | none => k (c :: rest) cap
      else k (c :: rest) cap
  | .endText, inp, cap, k => if inp.isEmpty then k inp cap else none
  | .concat r s, inp, cap, k => r.run inp cap (fun rest cap1 => s.run rest cap1 k)
  | .capture r, inp, cap, k =>
    r.run inp cap (fun rest _ => k rest (some (inp.take (inp.length - rest.length))))

/-- A match: the matched text and the text of capture group 1 (if the group took part). -/
abbrev Submatch := List Char × Option (List Char)

/-- The preferred match of `r` that starts at the beginning of `inp`. -/
def Regex.matchAt (r : Regex) (inp : List Char) : Option Submatch :=
  r.run inp none (fun rest cap => some (inp.take (inp.length - rest.length), cap))

/-- Unanchored search: the match at the leftmost starting position that has one. -/
def Regex.find (r : Regex) : List Char → Option Submatch
  | [] => r.matchAt []
  | c :: cs =>
    match r.matchAt (c :: cs) with
    | some m => some m
    | none => Regex.find r cs

/-- `(*Regexp).MatchString`: does the string contain any match of the pattern? -/
def Regex.MatchString (r : Regex) (s : String) : Bool :=
  (r.find s.toList).isSome

/-- `(*Regexp).FindSubmatch` for a pattern with one capture group: `[]` (Go's `nil`) when there
is no match, otherwise the matched text followed by the text of group 1. -/
def Regex.FindSubmatch (r : Regex) (b : List Char) : List (List Char) :=
  match r.find b with
  | none => []
  | some (m, cap) => [m, cap.getD []]

/-! ## The patterns of `handleLogLine` -/

/-- The class `[0-9]`. -/
def digit : CharSet := .range '0' '9'

/-- Pattern `ServerLobby: New player (.+) with online id [0-9][0-9]?`. -/
def playerJoin : Regex :=
  .concat (.literal "ServerLobby: New player ".toList)
    (.concat (.capture (.plus .anyNotNL))
      (.concat (.literal " with online id ".toList)
        (.concat (.one digit) (.quest digit))))

/-- Pattern `ServerLobby: (.+) disconnected$`. -/
def playerLeave : Regex :=
  .concat (.literal "ServerLobby: ".toList)
    (.concat (.capture (.plus .anyNotNL))
      (.concat (.literal " disconnected".toList) .endText))

/-- Pattern `STKHost.+There are now 0 peers\.$`. -/
def noMorePlayers : Regex :=
  .concat (.literal "STKHost".toList)
    (.concat (.plus .anyNotNL)
      (.concat (.literal "There are now 0 peers.".toList) .endText))

/-- Pattern `Listening has been started`. -/
def serverStart : Regex := .literal "Listening has been started".toList

/-! ## `handleLogLine` -/

/-- Go's `matches[1]` followed by `string(...)`; `none` when index 1 is out of range. -/
def submatch1 (submatches : List (List Char)) : Option String :=
  match submatches with
  | _ :: m :: _ => some (String.mk m)
  | _ => none

/-- The function `handleLogLine` of `main.go`: the tag and the optional player name, or `none`
if the body panics. -/
def handleLogLine (line : String) : Option (String × Option String) :=
  if serverStart.MatchString line then
    some ("READY", none)
  else if playerJoin.MatchString line then
    match submatch1 (playerJoin.FindSubmatch line.toList) with
    | some player => some ("PLAYERJOIN", some player)
    | none => none
  else if playerLeave.MatchString line then
    match submatch1 (playerLeave.FindSubmatch line.toList) with
    | some player => some ("PLAYERLEAVE", some player)
    | none => none
  else if noMorePlayers.MatchString line then
    some ("SHUTDOWN", none)
  else
    some ("", none)

/-! ## The retry loop of `main` -/

/-- The variables of `main` that the retry loop assigns, and the number of calls of
`tail.TailFile` made so far. -/
structure LoopState (T E : Type) where
  t : T
  err : Option E
  attempts : Nat

/-- The loop `for i := 0; i < 10; i++ { ... }` of `main`, from the value `i` of the counter.
`tailFile k` is what the call number `k` (counted from 0) of `tail.TailFile` returns: a tail
and an error, `none` being Go's `nil` error.  Both results are assigned; an error continues
with `i + 1`, no error leaves the loop. -/
def retryLoop {T E : Type} (tailFile : Nat → T × Option E) (i : Nat) (st : LoopState T E) :
    LoopState T E :=
  if i < 10 then
    let r := tailFile st.attempts
    let st1 : LoopState T E := ⟨r.1, r.2, st.attempts + 1⟩
    if r.2.isSome then retryLoop tailFile (i + 1) st1 else st1
  else st
termination_by 10 - i

/-- The loop as `main` enters it: counter 0, `t` the empty tail `&tail.Tail{}`, `err` nil
(a failed `os.UserHomeDir` has ended the program before), no attempt made. -/
def openLog {T E : Type} (tailFile : Nat → T × Option E) (emptyTail : T) : LoopState T E :=
  retryLoop tailFile 0 ⟨emptyTail, none, 0⟩

/-! ## `main` after the retry loop -/

/-- What `main` does with the tail once the retry loop is over, for the lines `lines` that the
tail would deliver: it defers `t.Cleanup()` and calls `log.Fatal("tail ended")`, which logs the
message and ends the program.  `t.Lines` is never read and `handleLogLine` is never called.
The result is the list of events emitted and the list of messages logged. -/
def mainAfterLoop (_lines : List String) : List (String × Option String) × List String :=
  ([], ["tail ended"])

/-- The events that the specification describes for the lines of the tail: each line is
classified by `handleLogLine`, and the results with a non-empty tag are emitted in the order
of the lines.  This follows the words of the specification, for comparison with
`mainAfterLoop`. -/
def specEvents (lines : List String) : List (String × Option String) :=
  lines.filterMap fun line =>
    match handleLogLine line with
    | some (tag, name) => if tag = "" then none else some (tag, name)
    | none => none

/-! ## The command line of `main` -/

/-- The scan of `strings.Split(s, " ")`: `field` is the text read since the last space; a
space closes the field and the end of the input closes the last field. -/
def splitLoop : List Char → List Char → List (List Char)
  | field, [] => [field]
  | field, c :: cs =>
    if c = ' ' then field :: splitLoop [] cs else splitLoop (field ++ [c]) cs

/-- The slice `cmdString := strings.Split(*input, " ")` of `main`. -/
def cmdString (input : String) : List String :=
  (splitLoop [] input.toList).map String.mk

/-- The assignment `command, args := cmdString[0], cmdString[1:]` of `main`; `none` when an
index is out of range. -/
def commandArgs (input : String) : Option (String × List String) :=
  match cmdString input with
  | [] => none
  | command :: args => some (command, args)

/-! ## Vocabulary of the specification -/

/-- The string `s` contains `sub` as a contiguous substring. -/
def Contains (s sub : String) : Prop := sub.toList <:+: s.toList

instance (s sub : String) : Decidable (Contains s sub) :=
  inferInstanceAs (Decidable (sub.toList <:+: s.toList))

/-- The text that follows the captured name in a player-join match: the literal
`" with online id "` and a digit. -/
def joinTail (rest : List Char) : Prop :=
  ∃ d tl, rest = " with online id ".toList ++ d :: tl ∧ digit.test d = true

/-- A capture-free sub-pattern `T` that is the last part of a pattern, described by the
predicate `P` on the unread input: running `T` succeeds exactly on inputs that satisfy `P`
(given that the final continuation succeeds), and passes the capture on unchanged. -/
structure TailSpec (T : Regex) (P : List Char → Prop) : Prop where
  sound : ∀ {α : Type} (rest : List Char) (cap : Option (List Char))
    (k : List Char → Option (List Char) → Option α) (x : α),
    T.run rest cap k = some x → P rest ∧ ∃ rest1, k rest1 cap = some x
  complete : ∀ {α : Type} (rest : List Char) (cap : Option (List Char))
    (k : List Char → Option (List Char) → Option α),
    P rest → (∀ rest1, (k rest1 cap).isSome = true) → (T.run rest cap k).isSome = true

/-! ## Lemmas on the matcher -/

theorem plusLoop_eq_none {α : Type} (p : Char → Bool) (k : List Char → Option α) :
    ∀ inp : List Char, plusLoop p k inp = none →
      ∀ u v, inp = u ++ v → u ≠ [] → (∀ c ∈ u, p c = true) → k v = none := by
  intro inp
  induction inp with
  | nil =>
    intro _ u v huv hu _
    cases u with
    | nil => exact absurd rfl hu
    | cons a u1 => simp at huv
  | cons c cs ih =>
    intro h u v huv hu hp
    cases u with
    | nil => exact absurd rfl hu
    | cons a u1 =>
      simp only [List.cons_append, List.cons.injEq] at huv
      obtain ⟨hca, hcs⟩ := huv
      have hpc : p c = true := by
        rw [hca]; exact hp a (List.mem_cons_self _ _)
      simp only [plusLoop, hpc, if_true] at h
      cases hrec : plusLoop p k cs with
      | some r => rw [hrec] at h; simp at h
      | none =>
        rw [hrec] at h
        simp only at h
        by_cases hu1 : u1 = []
        · subst hu1
          simp only [List.nil_append] at hcs
          rw [← hcs]; exact h
        · exact ih hrec u1 v hcs hu1 (fun x hx => hp x (List.mem_cons_of_mem _ hx))

theorem plusLoop_none_of {α : Type} (p : Char → Bool) (k : List Char → Option α) :
    ∀ inp : List Char,
      (∀ u v, inp = u ++ v → u ≠ [] → (∀ c ∈ u, p c = true) → k v = none) →
      plusLoop p k inp = none := by
  intro inp
  induction inp with
  | nil => intro _; rfl
  | cons c cs ih =>
    intro h
    by_cases hpc : p c = true
    · have hrec : plusLoop p k cs = none := by
        apply ih
        intro u v huv hu hp
        apply h (c :: u) v (by rw [huv]; rfl) (by simp)
        intro x hx
        rcases List.mem_cons.mp hx with rfl | hx
        · exact hpc
        · exact hp x hx
      have hk : k cs = none :=
        h [c] cs rfl (by simp) (by intro x hx; simp at hx; rw [hx]; exact hpc)
      simp [plusLoop, hpc, hrec, hk]
    · simp [plusLoop, hpc]

/-- Soundness and greediness of `plusLoop`: a result comes from a non-empty run of characters
of the set after which the continuation succeeds, and the continuation fails after every
longer run. -/
theorem plusLoop_eq_some {α : Type} (p : Char → Bool) (k : List Char → Option α) :
    ∀ (inp : List Char) (r : α), plusLoop p k inp = some r →
      ∃ t rest, inp = t ++ rest ∧ t ≠ [] ∧ (∀ c ∈ t, p c = true) ∧ k rest = some r ∧
        ∀ u v, rest = u ++ v → u ≠ [] → (∀ c ∈ u, p c = true) → k v = none := by
  intro inp
  induction inp with
  | nil => intro r h; simp [plusLoop] at h
  | cons c cs ih =>
    intro r h
    by_cases hpc : p c = true
    · simp only [plusLoop, hpc, if_true] at h
      cases hrec : plusLoop p k cs with
      | some r1 =>
        rw [hrec] at h
        simp only [Option.some.injEq] at h
        subst h
        obtain ⟨t, rest, hsplit, _, hp, hk, hmax⟩ := ih r1 hrec
        refine ⟨c :: t, rest, by rw [hsplit]; rfl, by simp, ?_, hk, hmax⟩
        intro x hx
        rcases List.mem_cons.mp hx with rfl | hx
        · exact hpc
        · exact hp x hx
      | none =>
        rw [hrec] at h
        simp only at h
        refine ⟨[c], cs, rfl, by simp, ?_, h, plusLoop_eq_none p k cs hrec⟩
        intro x hx
        simp at hx
        rw [hx]; exact hpc
    · simp [plusLoop, hpc] at h

/-- Completeness of `plusLoop` for the longest admissible run. -/
theorem plusLoop_of_longest {α : Type} (p : Char → Bool) (k : List Char → Option α)
    (rest : List Char) (r : α) (hk : k rest = some r)
    (hmax : ∀ u v, rest = u ++ v → u ≠ [] → (∀ c ∈ u, p c = true) → k v = none) :
    ∀ t : List Char, t ≠ [] → (∀ c ∈ t, p c = true) → plusLoop p k (t ++ rest) = some r := by
  intro t
  induction t with
  | nil => intro h; exact absurd rfl h
  | cons c t ih =>
    intro _ hp
    have hpc : p c = true := hp c (List.mem_cons_self _ _)
    by_cases ht : t = []
    · subst ht
      have hrec : plusLoop p k rest = none := plusLoop_none_of p k rest hmax
      simp [plusLoop, hpc, hrec, hk]
    · have hrec := ih ht (fun x hx => hp x (List.mem_cons_of_mem _ hx))
      simp [plusLoop, hpc, hrec]

/-- Existence: if the continuation succeeds after some admissible run, `plusLoop` succeeds. -/
theorem plusLoop_isSome_of {α : Type} (p : Char → Bool) (k : List Char → Option α)
    (t rest : List Char) (ht : t ≠ []) (hp : ∀ c ∈ t, p c = true) (hk : (k rest).isSome = true) :
    (plusLoop p k (t ++ rest)).isSome = true := by
  cases h : plusLoop p k (t ++ rest) with
  | some r => rfl
  | none =>
    have := plusLoop_eq_none p k _ h t rest rfl ht hp
    rw [this] at hk
    simp at hk

theorem find_eq_none (r : Regex) :
    ∀ inp : List Char, r.find inp = none →
      ∀ pre suf, inp = pre ++ suf → r.matchAt suf = none := by
  intro inp
  induction inp with
  | nil =>
    intro h pre suf hsplit
    have hs : suf = [] := by
      cases pre <;> cases suf <;> simp at hsplit ⊢
    subst hs
    exact h
  | cons c cs ih =>
    intro h pre suf hsplit
    simp only [Regex.find] at h
    cases hm : r.matchAt (c :: cs) with
    | some m => rw [hm] at h; simp at h
    | none =>
      rw [hm] at h
      simp only at h
      cases pre with
      | nil => simp only [List.nil_append] at hsplit; rw [← hsplit]; exact hm
      | cons a pre1 =>
        simp only [List.cons_append, List.cons.injEq] at hsplit
        exact ih h pre1 suf hsplit.2

/-- Soundness of `find`: the result is the preferred match at some starting position and no
earlier starting position has a match. -/
theorem find_eq_some (r : Regex) :
    ∀ (inp : List Char) (m : Submatch), r.find inp = some m →
      ∃ pre suf, inp = pre ++ suf ∧ r.matchAt suf = some m ∧
        ∀ p1 p2, pre = p1 ++ p2 → p2 ≠ [] → r.matchAt (p2 ++ suf) = none := by
  intro inp
  induction inp with
  | nil =>
    intro m h
    refine ⟨[], [], rfl, h, ?_⟩
    intro p1 p2 hsplit hp2
    cases p1 <;> cases p2 <;> simp at hsplit hp2
  | cons c cs ih =>
    intro m h
    simp only [Regex.find] at h
    cases hm : r.matchAt (c :: cs) with
    | some m1 =>
      rw [hm] at h
      simp only [Option.some.injEq] at h
      subst h
      refine ⟨[], c :: cs, rfl, hm, ?_⟩
      intro p1 p2 hsplit hp2
      cases p1 <;> cases p2 <;> simp at hsplit hp2
    | none =>
      rw [hm] at h
      simp only at h
      obtain ⟨pre, suf, hsplit, hmatch, hleft⟩ := ih m h
      refine ⟨c :: pre, suf, by rw [hsplit]; rfl, hmatch, ?_⟩
      intro p1 p2 hp hp2
      cases p1 with
      | nil =>
        simp only [List.nil_append] at hp
        rw [← hp, List.cons_append, ← hsplit]
        exact hm
      | cons a p1t =>
        simp only [List.cons_append, List.cons.injEq] at hp
        exact hleft p1t p2 hp.2 hp2

/-- Completeness of `find`: a match at some starting position gives a match. -/
theorem find_isSome_of (r : Regex) (pre suf : List Char)
    (h : (r.matchAt suf).isSome = true) : (r.find (pre ++ suf)).isSome = true := by
  cases hf : r.find (pre ++ suf) with
  | some m => rfl
  | none =>
    rw [find_eq_none r _ hf pre suf rfl] at h
    simp at h

/-- The leftmost starting position wins: a match at the start of the input is the result. -/
theorem find_of_matchAt (r : Regex) (inp : List Char) (m : Submatch)
    (h : r.matchAt inp = some m) : r.find inp = some m := by
  cases inp with
  | nil => exact h
  | cons c cs => simp [Regex.find, h]

theorem find_isSome_iff (r : Regex) (inp : List Char) :
    (r.find inp).isSome = true ↔
      ∃ pre suf, inp = pre ++ suf ∧ (r.matchAt suf).isSome = true := by
  constructor
  · intro h
    obtain ⟨m, hm⟩ := Option.isSome_iff_exists.mp h
    obtain ⟨pre, suf, hsplit, hmatch, _⟩ := find_eq_some r inp m hm
    exact ⟨pre, suf, hsplit, by rw [hmatch]; rfl⟩
  · rintro ⟨pre, suf, rfl, h⟩
    exact find_isSome_of r pre suf h

theorem take_length_sub (t rest : List Char) :
    (t ++ rest).take ((t ++ rest).length - rest.length) = t := by
  simp

theorem run_concat {α : Type} (r s : Regex) (inp : List Char) (cap : Option (List Char))
    (k : List Char → Option (List Char) → Option α) :
    (Regex.concat r s).run inp cap k = r.run inp cap (fun rest cap1 => s.run rest cap1 k) := by
  simp only [Regex.run]

theorem run_literal_append {α : Type} (s rest : List Char) (cap : Option (List Char))
    (k : List Char → Option (List Char) → Option α) :
    (Regex.literal s).run (s ++ rest) cap k = k rest cap := by
  have h : s.isPrefixOf (s ++ rest) = true := by
    rw [List.isPrefixOf_iff_prefix]; exact List.prefix_append s rest
  simp [Regex.run, h]

theorem run_literal_some {α : Type} (s inp : List Char) (cap : Option (List Char))
    (k : List Char → Option (List Char) → Option α) (a : α)
    (h : (Regex.literal s).run inp cap k = some a) :
    ∃ rest, inp = s ++ rest ∧ k rest cap = some a := by
  simp only [Regex.run] at h
  by_cases hp : s.isPrefixOf inp = true
  · rw [if_pos hp] at h
    rw [List.isPrefixOf_iff_prefix] at hp
    exact ⟨inp.drop s.length, (List.prefix_iff_eq_append.mp hp).symm, h⟩
  · rw [if_neg hp] at h
    simp at h

/-- Shape `A(x+)T`: what a match at the start of the input looks like.  The capture is the
longest run of characters of the set after `A` that is followed by a text accepted by `T`. -/
theorem matchAt_capture_sound (A : List Char) (cs : CharSet) (T : Regex)
    (P : List Char → Prop) (hT : TailSpec T P) (inp : List Char) (m : Submatch)
    (h : (Regex.concat (.literal A) (.concat (.capture (.plus cs)) T)).matchAt inp = some m) :
    ∃ name rest, inp = A ++ name ++ rest ∧ name ≠ [] ∧ (∀ c ∈ name, cs.test c = true) ∧
      P rest ∧ m.2 = some name ∧
      ∀ u v, rest = u ++ v → u ≠ [] → (∀ c ∈ u, cs.test c = true) → ¬ P v := by
  simp only [Regex.matchAt, Regex.run] at h
  by_cases hp : A.isPrefixOf inp = true
  · rw [if_pos hp] at h
    rw [List.isPrefixOf_iff_prefix] at hp
    have hinp : inp = A ++ inp.drop A.length := (List.prefix_iff_eq_append.mp hp).symm
    obtain ⟨t, rest, hsplit, ht, hpt, hk, hmax⟩ := plusLoop_eq_some _ _ _ _ h
    obtain ⟨hP, rest1, hfin⟩ := hT.sound _ _ _ _ hk
    refine ⟨t, rest, by rw [List.append_assoc, ← hsplit]; exact hinp, ht, hpt, hP, ?_, ?_⟩
    · simp only [Option.some.injEq] at hfin
      rw [← hfin, hsplit, take_length_sub]
    · intro u v huv hu hpu hPv
      have hnone := hmax u v huv hu hpu
      have hsome := hT.complete v
        (some ((inp.drop A.length).take ((inp.drop A.length).length - v.length)))
        (fun rest cap => some (inp.take (inp.length - rest.length), cap)) hPv
        (fun _ => rfl)
      rw [hnone] at hsome
      simp at hsome
  · rw [if_neg hp] at h
    simp at h

/-- Shape `A(x+)T`: a decomposition with the longest possible capture is the match. -/
theorem matchAt_capture_longest (A : List Char) (cs : CharSet) (T : Regex)
    (P : List Char → Prop) (hT : TailSpec T P) (name rest : List Char)
    (hname : name ≠ []) (hcs : ∀ c ∈ name, cs.test c = true) (hP : P rest)
    (hmax : ∀ u v, rest = u ++ v → u ≠ [] → (∀ c ∈ u, cs.test c = true) → ¬ P v) :
    ∃ m, (Regex.concat (.literal A) (.concat (.capture (.plus cs)) T)).matchAt
      (A ++ name ++ rest) = some (m, some name) := by
  have hpre : A.isPrefixOf (A ++ name ++ rest) = true := by
    rw [List.isPrefixOf_iff_prefix, List.append_assoc]; exact List.prefix_append _ _
  have hdrop : (A ++ name ++ rest).drop A.length = name ++ rest := by
    rw [List.append_assoc]; simp
  simp only [Regex.matchAt, Regex.run, hpre, if_true, hdrop]
  have hsome := hT.complete rest
    (some ((name ++ rest).take ((name ++ rest).length - rest.length)))
    (fun r cap => some ((A ++ name ++ rest).take ((A ++ name ++ rest).length - r.length), cap))
    hP (fun _ => rfl)
  obtain ⟨x, hx⟩ := Option.isSome_iff_exists.mp hsome
  obtain ⟨_, rest1, hfin⟩ := hT.sound _ _ _ _ hx
  simp only [Option.some.injEq] at hfin
  refine ⟨x.1, ?_⟩
  have hx2 : x = (x.1, some name) := by
    rw [← hfin, take_length_sub]
  rw [← hx2]
  apply plusLoop_of_longest _ _ rest x hx _ name hname hcs
  intro u v huv hu hpu
  cases hv : T.run v (some ((name ++ rest).take ((name ++ rest).length - v.length)))
      (fun r cap => some ((A ++ name ++ rest).take ((A ++ name ++ rest).length - r.length), cap))
    with
  | none => rfl
  | some y => exact absurd (hT.sound _ _ _ _ hv).1 (hmax u v huv hu hpu)

/-- Shape `A(x+)T`: any decomposition gives a match at the start of the input. -/
theorem matchAt_capture_isSome (A : List Char) (cs : CharSet) (T : Regex)
    (P : List Char → Prop) (hT : TailSpec T P) (name rest : List Char)
    (hname : name ≠ []) (hcs : ∀ c ∈ name, cs.test c = true) (hP : P rest) :
    ((Regex.concat (.literal A) (.concat (.capture (.plus cs)) T)).matchAt
      (A ++ name ++ rest)).isSome = true := by
  have hpre : A.isPrefixOf (A ++ name ++ rest) = true := by
    rw [List.isPrefixOf_iff_prefix, List.append_assoc]; exact List.prefix_append _ _
  have hdrop : (A ++ name ++ rest).drop A.length = name ++ rest := by
    rw [List.append_assoc]; simp
  simp only [Regex.matchAt, Regex.run, hpre, if_true, hdrop]
  apply plusLoop_isSome_of _ _ name rest hname hcs
  exact hT.complete rest _ _ hP (fun _ => rfl)

/-- Shape `A x+ T` (no capture group): a match at the start of the input exists exactly for
the inputs `A ++ t ++ rest` with `t` a non-empty run of the set and `rest` accepted by `T`. -/
theorem matchAt_plus_isSome_iff (A : List Char) (cs : CharSet) (T : Regex)
    (P : List Char → Prop) (hT : TailSpec T P) (inp : List Char) :
    ((Regex.concat (.literal A) (.concat (.plus cs) T)).matchAt inp).isSome = true ↔
      ∃ t rest, inp = A ++ t ++ rest ∧ t ≠ [] ∧ (∀ c ∈ t, cs.test c = true) ∧ P rest := by
  constructor
  · intro h
    obtain ⟨m, hm⟩ := Option.isSome_iff_exists.mp h
    simp only [Regex.matchAt, Regex.run] at hm
    by_cases hp : A.isPrefixOf inp = true
    · rw [if_pos hp] at hm
      rw [List.isPrefixOf_iff_prefix] at hp
      have hinp : inp = A ++ inp.drop A.length := (List.prefix_iff_eq_append.mp hp).symm
      obtain ⟨t, rest, hsplit, ht, hpt, hk, _⟩ := plusLoop_eq_some _ _ _ _ hm
      exact ⟨t, rest, by rw [List.append_assoc, ← hsplit]; exact hinp, ht, hpt,
        (hT.sound _ _ _ _ hk).1⟩
    · rw [if_neg hp] at hm
      simp at hm
  · rintro ⟨t, rest, rfl, ht, hpt, hP⟩
    have hpre : A.isPrefixOf (A ++ t ++ rest) = true := by
      rw [List.isPrefixOf_iff_prefix, List.append_assoc]; exact List.prefix_append _ _
    have hdrop : (A ++ t ++ rest).drop A.length = t ++ rest := by
      rw [List.append_assoc]; simp
    simp only [Regex.matchAt, Regex.run, hpre, if_true, hdrop]
    apply plusLoop_isSome_of _ _ t rest ht hpt
    exact hT.complete rest _ _ hP (fun _ => rfl)

/-! ## The tails of the three patterns with `.+` -/

theorem run_quest_some {α : Type} (cs : CharSet) (inp : List Char) (cap : Option (List Char))
    (k : List Char → Option (List Char) → Option α) (x : α)
    (h : (Regex.quest cs).run inp cap k = some x) : ∃ rest1, k rest1 cap = some x := by
  cases inp with
  | nil => exact ⟨[], h⟩
  | cons c rest =>
    simp only [Regex.run] at h
    by_cases hc : cs.test c = true
    · rw [if_pos hc] at h
      cases hk : k rest cap with
      | some r =>
        rw [hk] at h
        simp only [Option.some.injEq] at h
        exact ⟨rest, by rw [hk, h]⟩
      | none =>
        rw [hk] at h
        exact ⟨c :: rest, h⟩
    · rw [if_neg hc] at h
      exact ⟨c :: rest, h⟩

theorem run_quest_isSome {α : Type} (cs : CharSet) (inp : List Char) (cap : Option (List Char))
    (k : List Char → Option (List Char) → Option α)
    (hk : ∀ rest1, (k rest1 cap).isSome = true) : ((Regex.quest cs).run inp cap k).isSome = true := by
  cases inp with
  | nil => exact hk []
  | cons c rest =>
    simp only [Regex.run]
    by_cases hc : cs.test c = true
    · rw [if_pos hc]
      cases hr : k rest cap with
      | some r => rfl
      | none => have := hk rest; rw [hr] at this; simp at this
    · rw [if_neg hc]
      exact hk (c :: rest)

theorem tailSpec_join :
    TailSpec (.concat (.literal " with online id ".toList) (.concat (.one digit) (.quest digit)))
      joinTail where
  sound := by
    intro α rest cap k x h
    rw [run_concat] at h
    obtain ⟨r1, hrest, hk⟩ := run_literal_some _ _ _ _ _ h
    cases r1 with
    | nil => simp [Regex.run] at hk
    | cons d tl =>
      simp only [Regex.run] at hk
      by_cases hd : digit.test d = true
      · rw [if_pos hd] at hk
        exact ⟨⟨d, tl, hrest, hd⟩, run_quest_some digit tl cap k x hk⟩
      · rw [if_neg hd] at hk
        simp at hk
  complete := by
    intro α rest cap k hP hk
    obtain ⟨d, tl, rfl, hd⟩ := hP
    have h1 : (Regex.concat (.literal " with online id ".toList)
        (.concat (.one digit) (.quest digit))).run (" with online id ".toList ++ d :: tl) cap k
        = (Regex.concat (.one digit) (.quest digit)).run (d :: tl) cap k := by
      rw [run_concat]; exact run_literal_append _ _ _ _
    rw [h1]
    simp only [Regex.run, hd, if_true]
    exact run_quest_isSome digit tl cap k hk

/-- A literal followed by `$` accepts exactly the literal as the whole unread input. -/
theorem tailSpec_literal_end (s : List Char) :
    TailSpec (.concat (.literal s) .endText) (fun rest => rest = s) where
  sound := by
    intro α rest cap k x h
    rw [run_concat] at h
    obtain ⟨r1, hrest, hk⟩ := run_literal_some _ _ _ _ _ h
    simp only [Regex.run] at hk
    cases r1 with
    | nil => exact ⟨by simpa using hrest, [], by simpa using hk⟩
    | cons c r2 => simp at hk
  complete := by
    intro α rest cap k hP hk
    have hP1 : rest = s ++ [] := by simpa using hP
    rw [hP1]
    have h1 : (Regex.concat (.literal s) .endText).run (s ++ []) cap k
        = Regex.endText.run [] cap k := by
      rw [run_concat]; exact run_literal_append _ _ _ _
    rw [h1]
    simp only [Regex.run, List.isEmpty_nil, if_true]
    exact hk []

theorem anyNotNL_test (c : Char) : CharSet.anyNotNL.test c = true ↔ c ≠ '\n' := by
  simp [CharSet.test]

theorem all_anyNotNL (t : List Char) :
    (∀ c ∈ t, CharSet.anyNotNL.test c = true) ↔ '\n' ∉ t := by
  constructor
  · intro h hmem
    exact (anyNotNL_test _).mp (h _ hmem) rfl
  · intro h c hc
    rw [anyNotNL_test]
    rintro rfl
    exact h hc

/-! ## What each pattern finds -/

/-- What a match of the player-join pattern looks like. -/
theorem playerJoin_find_sound (inp : List Char) (m : Submatch)
    (h : playerJoin.find inp = some m) :
    ∃ pre name rest, inp = pre ++ "ServerLobby: New player ".toList ++ name ++ rest ∧
      name ≠ [] ∧ '\n' ∉ name ∧ joinTail rest ∧ m.2 = some name := by
  obtain ⟨pre, suf, hsplit, hmatch, _⟩ := find_eq_some _ _ _ h
  obtain ⟨name, rest, hsuf, hne, hcs, hP, hcap, _⟩ :=
    matchAt_capture_sound _ _ _ joinTail tailSpec_join suf m hmatch
  refine ⟨pre, name, rest, ?_, hne, (all_anyNotNL name).mp hcs, hP, hcap⟩
  rw [hsplit, hsuf]
  simp only [List.append_assoc]

/-- What a match of the player-leave pattern looks like. -/
theorem playerLeave_find_sound (inp : List Char) (m : Submatch)
    (h : playerLeave.find inp = some m) :
    ∃ pre name, inp = pre ++ "ServerLobby: ".toList ++ name ++ " disconnected".toList ∧
      name ≠ [] ∧ '\n' ∉ name ∧ m.2 = some name := by
  obtain ⟨pre, suf, hsplit, hmatch, _⟩ := find_eq_some _ _ _ h
  obtain ⟨name, rest, hsuf, hne, hcs, hP, hcap, _⟩ :=
    matchAt_capture_sound _ _ _ _ (tailSpec_literal_end " disconnected".toList) suf m hmatch
  refine ⟨pre, name, ?_, hne, (all_anyNotNL name).mp hcs, hcap⟩
  rw [hsplit, hsuf, hP]
  simp only [List.append_assoc]

/-- The shutdown pattern matches exactly the lines `pre ++ "STKHost" ++ t ++ "There are now 0
peers."` with `t` non-empty and free of newlines. -/
theorem noMorePlayers_find_isSome_iff (inp : List Char) :
    (noMorePlayers.find inp).isSome = true ↔
      ∃ pre t, inp = pre ++ "STKHost".toList ++ t ++ "There are now 0 peers.".toList ∧
        t ≠ [] ∧ '\n' ∉ t := by
  rw [find_isSome_iff]
  constructor
  · rintro ⟨pre, suf, hsplit, h⟩
    obtain ⟨t, rest, hsuf, ht, hcs, hP⟩ :=
      (matchAt_plus_isSome_iff _ _ _ _
        (tailSpec_literal_end "There are now 0 peers.".toList) suf).mp h
    refine ⟨pre, t, ?_, ht, (all_anyNotNL t).mp hcs⟩
    rw [hsplit, hsuf, hP]
    simp only [List.append_assoc]
  · rintro ⟨pre, t, hsplit, ht, hnl⟩
    refine ⟨pre, "STKHost".toList ++ t ++ "There are now 0 peers.".toList, ?_, ?_⟩
    · rw [hsplit]; simp only [List.append_assoc]
    · exact (matchAt_plus_isSome_iff _ _ _ _
        (tailSpec_literal_end "There are now 0 peers.".toList) _).mpr
        ⟨t, _, rfl, ht, (all_anyNotNL t).mpr hnl, rfl⟩

/-- The ready pattern matches exactly the lines that contain the marker. -/
theorem serverStart_find_isSome_iff (inp : List Char) :
    (serverStart.find inp).isSome = true ↔ "Listening has been started".toList <:+: inp := by
  rw [find_isSome_iff]
  constructor
  · rintro ⟨pre, suf, hsplit, h⟩
    obtain ⟨m, hm⟩ := Option.isSome_iff_exists.mp h
    obtain ⟨rest, hsuf, _⟩ := run_literal_some _ _ _ _ _ hm
    exact ⟨pre, rest, by rw [hsplit, hsuf, List.append_assoc]⟩
  · rintro ⟨pre, rest, hsplit⟩
    refine ⟨pre, "Listening has been started".toList ++ rest, ?_, ?_⟩
    · rw [← hsplit, List.append_assoc]
    · have h1 : serverStart.matchAt ("Listening has been started".toList ++ rest) = _ :=
        run_literal_append _ _ _ _
      rw [h1]; rfl

/-! ## `handleLogLine`, branch by branch -/

theorem handleLogLine_ready (line : String) (h : serverStart.MatchString line = true) :
    handleLogLine line = some ("READY", none) := by
  simp [handleLogLine, h]

theorem handleLogLine_join (line : String) (m : Submatch)
    (h0 : serverStart.MatchString line = false)
    (h : playerJoin.find line.toList = some m) :
    handleLogLine line = some ("PLAYERJOIN", some (String.mk (m.2.getD []))) := by
  have hd : playerJoin.find line.data = some m := h
  have h1 : playerJoin.MatchString line = true := by
    simp [Regex.MatchString, hd]
  simp [handleLogLine, h0, h1, Regex.FindSubmatch, hd, submatch1]

theorem handleLogLine_leave (line : String) (m : Submatch)
    (h0 : serverStart.MatchString line = false)
    (h1 : playerJoin.MatchString line = false)
    (h : playerLeave.find line.toList = some m) :
    handleLogLine line = some ("PLAYERLEAVE", some (String.mk (m.2.getD []))) := by
  have hd : playerLeave.find line.data = some m := h
  have h2 : playerLeave.MatchString line = true := by
    simp [Regex.MatchString, hd]
  simp [handleLogLine, h0, h1, h2, Regex.FindSubmatch, hd, submatch1]

theorem handleLogLine_shutdown (line : String)
    (h0 : serverStart.MatchString line = false)
    (h1 : playerJoin.MatchString line = false)
    (h2 : playerLeave.MatchString line = false)
    (h3 : noMorePlayers.MatchString line = true) :
    handleLogLine line = some ("SHUTDOWN", none) := by
  simp [handleLogLine, h0, h1, h2, h3]

theorem handleLogLine_nothing (line : String)
    (h0 : serverStart.MatchString line = false)
    (h1 : playerJoin.MatchString line = false)
    (h2 : playerLeave.MatchString line = false)
    (h3 : noMorePlayers.MatchString line = false) :
    handleLogLine line = some ("", none) := by
  simp [handleLogLine, h0, h1, h2, h3]

/-- The five ways through `handleLogLine`. -/
theorem handleLogLine_cases (line : String) :
    (serverStart.MatchString line = true ∧ handleLogLine line = some ("READY", none)) ∨
    (serverStart.MatchString line = false ∧
      ∃ m, playerJoin.find line.toList = some m ∧
        handleLogLine line = some ("PLAYERJOIN", some (String.mk (m.2.getD [])))) ∨
    (serverStart.MatchString line = false ∧ playerJoin.MatchString line = false ∧
      ∃ m, playerLeave.find line.toList = some m ∧
        handleLogLine line = some ("PLAYERLEAVE", some (String.mk (m.2.getD [])))) ∨
    (serverStart.MatchString line = false ∧ playerJoin.MatchString line = false ∧
      playerLeave.MatchString line = false ∧ noMorePlayers.MatchString line = true ∧
      handleLogLine line = some ("SHUTDOWN", none)) ∨
    (serverStart.MatchString line = false ∧ playerJoin.MatchString line = false ∧
      playerLeave.MatchString line = false ∧ noMorePlayers.MatchString line = false ∧
      handleLogLine line = some ("", none)) := by
  cases h0 : serverStart.MatchString line with
  | true => exact Or.inl ⟨rfl, handleLogLine_ready line h0⟩
  | false =>
    right
    cases hj : playerJoin.find line.toList with
    | some m => exact Or.inl ⟨rfl, m, rfl, handleLogLine_join line m h0 hj⟩
    | none =>
      right
      have h1 : playerJoin.MatchString line = false := by
        unfold Regex.MatchString; rw [hj]; rfl
      cases hl : playerLeave.find line.toList with
      | some m => exact Or.inl ⟨rfl, h1, m, rfl, handleLogLine_leave line m h0 h1 hl⟩
      | none =>
        right
        have h2 : playerLeave.MatchString line = false := by
          unfold Regex.MatchString; rw [hl]; rfl
        cases h3 : noMorePlayers.MatchString line with
        | true => exact Or.inl ⟨rfl, h1, h2, rfl, handleLogLine_shutdown line h0 h1 h2 h3⟩
        | false => exact Or.inr ⟨rfl, h1, h2, rfl, handleLogLine_nothing line h0 h1 h2 h3⟩

theorem serverStart_matchString_iff (line : String) :
    serverStart.MatchString line = true ↔ Contains line "Listening has been started" :=
  serverStart_find_isSome_iff line.toList

theorem serverStart_matchString_false (line : String)
    (h : ¬ Contains line "Listening has been started") : serverStart.MatchString line = false := by
  cases hm : serverStart.MatchString line with
  | false => rfl
  | true => exact absurd ((serverStart_matchString_iff line).mp hm) h

theorem playerJoin_contains_tag (line : String) (h : playerJoin.MatchString line = true) :
    Contains line "ServerLobby: " := by
  obtain ⟨m, hm⟩ := Option.isSome_iff_exists.mp h
  obtain ⟨pre, name, rest, hsplit, _⟩ := playerJoin_find_sound _ _ hm
  refine ⟨pre, "New player ".toList ++ name ++ rest, ?_⟩
  have hlit : "ServerLobby: New player ".toList = "ServerLobby: ".toList ++ "New player ".toList :=
    by decide
  rw [hsplit, hlit]
  simp only [List.append_assoc]

theorem playerLeave_contains_tag (line : String) (h : playerLeave.MatchString line = true) :
    Contains line "ServerLobby: " := by
  obtain ⟨m, hm⟩ := Option.isSome_iff_exists.mp h
  obtain ⟨pre, name, hsplit, _⟩ := playerLeave_find_sound _ _ hm
  refine ⟨pre, name ++ " disconnected".toList, ?_⟩
  rw [hsplit]
  simp only [List.append_assoc]

theorem noMorePlayers_contains_tag (line : String) (h : noMorePlayers.MatchString line = true) :
    Contains line "STKHost" := by
  obtain ⟨pre, t, hsplit, _⟩ := (noMorePlayers_find_isSome_iff _).mp h
  refine ⟨pre, t ++ "There are now 0 peers.".toList, ?_⟩
  rw [hsplit]
  simp only [List.append_assoc]

theorem matchString_false_of_not (r : Regex) (line : String) (P : Prop)
    (h : r.MatchString line = true → P) (hP : ¬ P) : r.MatchString line = false := by
  cases hm : r.MatchString line with
  | false => rfl
  | true => exact absurd (h hm) hP

/-! ## The claims on `handleLogLine` -/

theorem joinTail_of_digits (oid : List Char) (hlen : oid.length = 1 ∨ oid.length = 2)
    (hdig : ∀ c ∈ oid, '0' ≤ c ∧ c ≤ '9') : joinTail (" with online id ".toList ++ oid) := by
  cases oid with
  | nil => simp at hlen
  | cons d tl =>
    refine ⟨d, tl, rfl, ?_⟩
    have hd := hdig d (List.mem_cons_self _ _)
    simp [digit, CharSet.test, hd.1, hd.2]

theorem no_later_joinTail (oid : List Char) (hlen : oid.length = 1 ∨ oid.length = 2)
    (u v : List Char) (huv : " with online id ".toList ++ oid = u ++ v) (hu : u ≠ []) :
    ¬ joinTail v := by
  rintro ⟨d, tl, rfl, _⟩
  have hl := congrArg List.length huv
  have h16 : " with online id ".toList.length = 16 := by decide
  simp only [List.length_append, List.length_cons, h16] at hl
  have hu1 : 0 < u.length := List.length_pos.mpr hu
  have hul : u.length = 1 := by omega
  have hol : oid.length = 2 := by omega
  have htl : tl.length = 0 := by omega
  obtain ⟨a, rfl⟩ := List.length_eq_one.mp hul
  obtain ⟨d1, d2, rfl⟩ := List.length_eq_two.mp hol
  have hlit : " with online id ".toList
      = [' ', 'w', 'i', 't', 'h', ' ', 'o', 'n', 'l', 'i', 'n', 'e', ' ', 'i', 'd', ' '] := by
    decide
  rw [hlit] at huv
  simp at huv

/-- C1: a line `"ServerLobby: New player " ++ name ++ " with online id " ++ id`, with `name`
non-empty and free of newlines, `id` one or two decimal digits, and no ready marker in the
line, is classified as `PLAYERJOIN` with exactly `name` as the player name. -/
theorem handleLogLine_playerJoin_name (name oid : String)
    (hname : name ≠ "") (hnl : '\n' ∉ name.toList)
    (hlen : oid.length = 1 ∨ oid.length = 2)
    (hdig : ∀ c ∈ oid.toList, '0' ≤ c ∧ c ≤ '9')
    (hready : ¬ Contains ("ServerLobby: New player " ++ name ++ " with online id " ++ oid)
      "Listening has been started") :
    handleLogLine ("ServerLobby: New player " ++ name ++ " with online id " ++ oid)
      = some ("PLAYERJOIN", some name) := by
  have h0 := serverStart_matchString_false _ hready
  have hne : name.toList ≠ [] := by
    intro h
    exact hname (String.toList_inj.mp (by rw [h]; rfl))
  obtain ⟨m, hm⟩ := matchAt_capture_longest "ServerLobby: New player ".toList .anyNotNL _
    joinTail tailSpec_join name.toList (" with online id ".toList ++ oid.toList) hne
    ((all_anyNotNL _).mpr hnl) (joinTail_of_digits _ hlen hdig)
    (fun u v huv hu _ => no_later_joinTail _ hlen u v huv hu)
  have hline : ("ServerLobby: New player " ++ name ++ " with online id " ++ oid).toList
      = "ServerLobby: New player ".toList ++ name.toList
        ++ (" with online id ".toList ++ oid.toList) := by
    simp [String.toList]
  have hfind : playerJoin.find
      ("ServerLobby: New player " ++ name ++ " with online id " ++ oid).toList
      = some (m, some name.toList) := by
    rw [hline]
    exact find_of_matchAt _ _ _ hm
  rw [handleLogLine_join _ _ h0 hfind]
  rfl

theorem handleLogLine_playerJoin_name_witness :
    "Alice" ≠ "" ∧ '\n' ∉ "Alice".toList ∧ "3".length = 1 ∧
    (∀ c ∈ "3".toList, '0' ≤ c ∧ c ≤ '9') ∧
    ¬ Contains "ServerLobby: New player Alice with online id 3" "Listening has been started" ∧
    handleLogLine "ServerLobby: New player Alice with online id 3"
      = some ("PLAYERJOIN", some "Alice") :=
  ⟨by decide, by decide, by decide, by decide, by decide,
    handleLogLine_playerJoin_name "Alice" "3" (by decide) (by decide) (by decide) (by decide)
      (by decide)⟩

/-- C2, as stated, fails: the line `"Bob disconnected"` has no `"ServerLobby: "` tag, matches
no pattern and yields the empty tag, although it matches neither the ready nor the player-join
rule. -/
theorem handleLogLine_bob_disconnected :
    "Bob" ≠ "" ∧ '\n' ∉ "Bob".toList ∧ "Bob" ++ " disconnected" = "Bob disconnected" ∧
    serverStart.MatchString "Bob disconnected" = false ∧
    playerJoin.MatchString "Bob disconnected" = false ∧
    handleLogLine "Bob disconnected" = some ("", none) ∧
    handleLogLine "Bob disconnected" ≠ some ("PLAYERLEAVE", some "Bob") := by
  decide

/-- C2, amended: a line `"ServerLobby: " ++ name ++ " disconnected"`, with `name` non-empty and
free of newlines, that matches neither the ready rule nor the player-join rule is classified as
`PLAYERLEAVE` with exactly `name` as the player name. -/
theorem handleLogLine_playerLeave_name (name : String)
    (hname : name ≠ "") (hnl : '\n' ∉ name.toList)
    (hready : serverStart.MatchString ("ServerLobby: " ++ name ++ " disconnected") = false)
    (hjoin : playerJoin.MatchString ("ServerLobby: " ++ name ++ " disconnected") = false) :
    handleLogLine ("ServerLobby: " ++ name ++ " disconnected")
      = some ("PLAYERLEAVE", some name) := by
  have hne : name.toList ≠ [] := by
    intro h
    exact hname (String.toList_inj.mp (by rw [h]; rfl))
  obtain ⟨m, hm⟩ := matchAt_capture_longest "ServerLobby: ".toList .anyNotNL _
    _ (tailSpec_literal_end " disconnected".toList) name.toList " disconnected".toList hne
    ((all_anyNotNL _).mpr hnl) rfl
    (by
      intro u v huv hu _ hv
      have hl := congrArg List.length huv
      rw [hv, List.length_append] at hl
      have hu1 : 0 < u.length := List.length_pos.mpr hu
      omega)
  have hline : ("ServerLobby: " ++ name ++ " disconnected").toList
      = "ServerLobby: ".toList ++ name.toList ++ " disconnected".toList := by
    simp [String.toList]
  have hfind : playerLeave.find ("ServerLobby: " ++ name ++ " disconnected").toList
      = some (m, some name.toList) := by
    rw [hline]
    exact find_of_matchAt _ _ _ hm
  rw [handleLogLine_leave _ _ hready hjoin hfind]
  rfl

theorem handleLogLine_playerLeave_name_witness :
    "Bob" ≠ "" ∧ '\n' ∉ "Bob".toList ∧
    serverStart.MatchString "ServerLobby: Bob disconnected" = false ∧
    playerJoin.MatchString "ServerLobby: Bob disconnected" = false ∧
    handleLogLine "ServerLobby: Bob disconnected" = some ("PLAYERLEAVE", some "Bob") :=
  ⟨by decide, by decide, by decide, by decide,
    handleLogLine_playerLeave_name "Bob" (by decide) (by decide) (by decide) (by decide)⟩

/-- C3: `handleLogLine` answers `READY` (without a name) exactly for the lines that contain
`"Listening has been started"`, whatever else the line matches. -/
theorem handleLogLine_ready_iff (line : String) :
    handleLogLine line = some ("READY", none) ↔ Contains line "Listening has been started" := by
  rw [← serverStart_matchString_iff]
  constructor
  · intro h
    rcases handleLogLine_cases line with ⟨h0, _⟩ | ⟨_, m, _, hr⟩ | ⟨_, _, m, _, hr⟩ |
      ⟨_, _, _, _, hr⟩ | ⟨_, _, _, _, hr⟩
    · exact h0
    all_goals
      rw [hr] at h
      simp only [Option.some.injEq, Prod.mk.injEq] at h
      exact absurd h.1 (by decide)
  · exact handleLogLine_ready line

/-- C4: a line `"STKHost" ++ s ++ "There are now 0 peers."`, with `s` non-empty and free of
newlines, that contains neither the ready marker nor `"ServerLobby: "` is classified as
`SHUTDOWN` without a name. -/
theorem handleLogLine_shutdown_line (s : String)
    (hs : s ≠ "") (hnl : '\n' ∉ s.toList)
    (hready : ¬ Contains ("STKHost" ++ s ++ "There are now 0 peers.")
      "Listening has been started")
    (hlobby : ¬ Contains ("STKHost" ++ s ++ "There are now 0 peers.") "ServerLobby: ") :
    handleLogLine ("STKHost" ++ s ++ "There are now 0 peers.") = some ("SHUTDOWN", none) := by
  have hne : s.toList ≠ [] := by
    intro h
    exact hs (String.toList_inj.mp (by rw [h]; rfl))
  apply handleLogLine_shutdown
  · exact serverStart_matchString_false _ hready
  · exact matchString_false_of_not _ _ _ (playerJoin_contains_tag _) hlobby
  · exact matchString_false_of_not _ _ _ (playerLeave_contains_tag _) hlobby
  · apply (noMorePlayers_find_isSome_iff _).mpr
    refine ⟨[], s.toList, ?_, hne, hnl⟩
    simp [String.toList]

theorem handleLogLine_shutdown_line_witness :
    ": " ≠ "" ∧ '\n' ∉ ": ".toList ∧
    ¬ Contains "STKHost: There are now 0 peers." "Listening has been started" ∧
    ¬ Contains "STKHost: There are now 0 peers." "ServerLobby: " ∧
    handleLogLine "STKHost: There are now 0 peers." = some ("SHUTDOWN", none) :=
  ⟨by decide, by decide, by decide, by decide,
    handleLogLine_shutdown_line ": " (by decide) (by decide) (by decide) (by decide)⟩

/-- C5: a line that matches none of the four rules yields the empty tag without a name; this
is the case for every line that contains none of `"Listening has been started"`,
`"ServerLobby: "` and `"STKHost"`. -/
theorem handleLogLine_no_rule (line : String) :
    ((serverStart.MatchString line = false ∧ playerJoin.MatchString line = false ∧
        playerLeave.MatchString line = false ∧ noMorePlayers.MatchString line = false) →
      handleLogLine line = some ("", none)) ∧
    ((¬ Contains line "Listening has been started" ∧ ¬ Contains line "ServerLobby: " ∧
        ¬ Contains line "STKHost") →
      handleLogLine line = some ("", none)) := by
  constructor
  · rintro ⟨h0, h1, h2, h3⟩
    exact handleLogLine_nothing line h0 h1 h2 h3
  · rintro ⟨hready, hlobby, hhost⟩
    exact handleLogLine_nothing line (serverStart_matchString_false _ hready)
      (matchString_false_of_not _ _ _ (playerJoin_contains_tag _) hlobby)
      (matchString_false_of_not _ _ _ (playerLeave_contains_tag _) hlobby)
      (matchString_false_of_not _ _ _ (noMorePlayers_contains_tag _) hhost)

theorem handleLogLine_no_rule_witness :
    ¬ Contains "some unrelated debug output" "Listening has been started" ∧
    ¬ Contains "some unrelated debug output" "ServerLobby: " ∧
    ¬ Contains "some unrelated debug output" "STKHost" ∧
    handleLogLine "some unrelated debug output" = some ("", none) :=
  ⟨by decide, by decide, by decide,
    (handleLogLine_no_rule "some unrelated debug output").2
      ⟨by decide, by decide, by decide⟩⟩

theorem result_ne_of_tag_ne {t1 t2 : String} {n1 n2 : Option String} (h : t1 ≠ t2) :
    (some (t1, n1) : Option (String × Option String)) ≠ some (t2, n2) := by
  intro he
  simp only [Option.some.injEq, Prod.mk.injEq] at he
  exact h he.1

theorem string_ne_empty_of_data (l : List Char) (h : l ≠ []) : String.mk l ≠ "" := by
  intro he
  exact h (congrArg String.data he)

/-- C6, as stated, fails: with extra spaces around the name in the log line, the returned name
begins and ends with a space. -/
theorem handleLogLine_name_keeps_spaces :
    handleLogLine "ServerLobby: New player  Bob  with online id 1"
      = some ("PLAYERJOIN", some " Bob ") ∧
    " Bob ".toList.head? = some ' ' ∧ " Bob ".toList.getLast? = some ' ' ∧
    ' '.isWhitespace = true := by
  decide

/-- C6, amended: the returned name is the captured text as it stands in the line, directly
between `"ServerLobby: New player "` and `" with online id "` for `PLAYERJOIN`, and directly
between `"ServerLobby: "` and the final `" disconnected"` for `PLAYERLEAVE`; the one delimiter
space on each side is not part of the name, nothing else is trimmed. -/
theorem handleLogLine_name_delimited (line name : String) :
    (handleLogLine line = some ("PLAYERJOIN", some name) →
      ∃ pre post : String,
        line = pre ++ "ServerLobby: New player " ++ name ++ " with online id " ++ post) ∧
    (handleLogLine line = some ("PLAYERLEAVE", some name) →
      ∃ pre : String, line = pre ++ "ServerLobby: " ++ name ++ " disconnected") := by
  constructor
  · intro h
    rcases handleLogLine_cases line with ⟨_, hr⟩ | ⟨_, m, hm, hr⟩ | ⟨_, _, m, _, hr⟩ |
      ⟨_, _, _, _, hr⟩ | ⟨_, _, _, _, hr⟩
    · rw [hr] at h; exact absurd h (result_ne_of_tag_ne (by decide))
    · rw [hr] at h
      simp only [Option.some.injEq, Prod.mk.injEq, true_and] at h
      obtain ⟨pre, nm, rest, hsplit, _, _, ⟨d, tl, hrest, _⟩, hcap⟩ :=
        playerJoin_find_sound _ _ hm
      rw [hcap] at h
      refine ⟨String.mk pre, String.mk (d :: tl), String.ext ?_⟩
      rw [← h]
      simp only [String.data_append]
      rw [show line.data = line.toList from rfl, hsplit, hrest]
      simp [String.toList]
    · rw [hr] at h; exact absurd h (result_ne_of_tag_ne (by decide))
    · rw [hr] at h; exact absurd h (result_ne_of_tag_ne (by decide))
    · rw [hr] at h; exact absurd h (result_ne_of_tag_ne (by decide))
  · intro h
    rcases handleLogLine_cases line with ⟨_, hr⟩ | ⟨_, m, _, hr⟩ | ⟨_, _, m, hm, hr⟩ |
      ⟨_, _, _, _, hr⟩ | ⟨_, _, _, _, hr⟩
    · rw [hr] at h; exact absurd h (result_ne_of_tag_ne (by decide))
    · rw [hr] at h; exact absurd h (result_ne_of_tag_ne (by decide))
    · rw [hr] at h
      simp only [Option.some.injEq, Prod.mk.injEq, true_and] at h
      obtain ⟨pre, nm, hsplit, _, _, hcap⟩ := playerLeave_find_sound _ _ hm
      rw [hcap] at h
      refine ⟨String.mk pre, String.ext ?_⟩
      rw [← h]
      simp only [String.data_append]
      rw [show line.data = line.toList from rfl, hsplit]
      simp [String.toList]
    · rw [hr] at h; exact absurd h (result_ne_of_tag_ne (by decide))
    · rw [hr] at h; exact absurd h (result_ne_of_tag_ne (by decide))

theorem handleLogLine_name_delimited_witness :
    handleLogLine "ServerLobby: New player  Bob  with online id 1"
      = some ("PLAYERJOIN", some " Bob ") ∧
    ∃ pre post : String, "ServerLobby: New player  Bob  with online id 1"
      = pre ++ "ServerLobby: New player " ++ " Bob " ++ " with online id " ++ post :=
  ⟨by decide,
    (handleLogLine_name_delimited "ServerLobby: New player  Bob  with online id 1" " Bob ").1
      (by decide)⟩

/-- C7: the result of `handleLogLine` is well-formed: the tag is one of the five tags, a name
is present exactly for `PLAYERJOIN` and `PLAYERLEAVE`, and a name is a non-empty, newline-free
contiguous part of the line. -/
theorem handleLogLine_wellFormed (line : String) :
    ∃ tag name, handleLogLine line = some (tag, name) ∧
      (tag = "READY" ∨ tag = "PLAYERJOIN" ∨ tag = "PLAYERLEAVE" ∨ tag = "SHUTDOWN" ∨ tag = "") ∧
      (name.isSome = true ↔ (tag = "PLAYERJOIN" ∨ tag = "PLAYERLEAVE")) ∧
      ∀ n, name = some n → n ≠ "" ∧ '\n' ∉ n.toList ∧ Contains line n := by
  rcases handleLogLine_cases line with ⟨_, hr⟩ | ⟨_, m, hm, hr⟩ | ⟨_, _, m, hm, hr⟩ |
    ⟨_, _, _, _, hr⟩ | ⟨_, _, _, _, hr⟩
  · exact ⟨_, _, hr, by decide, by decide, by intro n hn; simp at hn⟩
  · obtain ⟨pre, nm, rest, hsplit, hne, hnl, _, hcap⟩ := playerJoin_find_sound _ _ hm
    refine ⟨_, _, hr, by decide, by simp, ?_⟩
    intro n hn
    simp only [Option.some.injEq] at hn
    subst hn
    rw [hcap]
    exact ⟨string_ne_empty_of_data nm hne, hnl,
      ⟨pre ++ "ServerLobby: New player ".toList, rest, hsplit.symm⟩⟩
  · obtain ⟨pre, nm, hsplit, hne, hnl, hcap⟩ := playerLeave_find_sound _ _ hm
    refine ⟨_, _, hr, by decide, by simp, ?_⟩
    intro n hn
    simp only [Option.some.injEq] at hn
    subst hn
    rw [hcap]
    exact ⟨string_ne_empty_of_data nm hne, hnl,
      ⟨pre ++ "ServerLobby: ".toList, " disconnected".toList, hsplit.symm⟩⟩
  · exact ⟨_, _, hr, by decide, by decide, by intro n hn; simp at hn⟩
  · exact ⟨_, _, hr, by decide, by decide, by intro n hn; simp at hn⟩

/-- C8: a line without the ready marker that matches the player-join pattern is classified
as `PLAYERJOIN`, whatever later rules it also matches. -/
theorem handleLogLine_join_first (line : String)
    (hready : ¬ Contains line "Listening has been started")
    (hjoin : playerJoin.MatchString line = true) :
    ∃ name, handleLogLine line = some ("PLAYERJOIN", some name) := by
  obtain ⟨m, hm⟩ := Option.isSome_iff_exists.mp hjoin
  exact ⟨_, handleLogLine_join line m (serverStart_matchString_false _ hready) hm⟩

theorem handleLogLine_join_first_witness :
    ¬ Contains "ServerLobby: New player Al with online id 3 disconnected"
      "Listening has been started" ∧
    playerJoin.MatchString "ServerLobby: New player Al with online id 3 disconnected" = true ∧
    playerLeave.MatchString "ServerLobby: New player Al with online id 3 disconnected" = true ∧
    handleLogLine "ServerLobby: New player Al with online id 3 disconnected"
      = some ("PLAYERJOIN", some "Al") ∧
    ∃ name, handleLogLine "ServerLobby: New player Al with online id 3 disconnected"
      = some ("PLAYERJOIN", some name) :=
  ⟨by decide, by decide, by decide, by decide,
    handleLogLine_join_first "ServerLobby: New player Al with online id 3 disconnected"
      (by decide) (by decide)⟩

theorem findSubmatch_length (r : Regex) (line : String) (h : r.MatchString line = true) :
    (r.FindSubmatch line.toList).length = 2 := by
  obtain ⟨m, hm⟩ := Option.isSome_iff_exists.mp h
  unfold Regex.FindSubmatch
  rw [hm]
  rfl

/-- C9: `handleLogLine` returns a result on every line, and whenever the player-join or the
player-leave pattern matches, `FindSubmatch` returns at least two entries, so that index 1 is
in range. -/
theorem handleLogLine_total (line : String) :
    (handleLogLine line).isSome = true ∧
    (playerJoin.MatchString line = true →
      2 ≤ (playerJoin.FindSubmatch line.toList).length ∧
      (submatch1 (playerJoin.FindSubmatch line.toList)).isSome = true) ∧
    (playerLeave.MatchString line = true →
      2 ≤ (playerLeave.FindSubmatch line.toList).length ∧
      (submatch1 (playerLeave.FindSubmatch line.toList)).isSome = true) := by
  refine ⟨?_, ?_, ?_⟩
  · rcases handleLogLine_cases line with ⟨_, hr⟩ | ⟨_, m, _, hr⟩ | ⟨_, _, m, _, hr⟩ |
      ⟨_, _, _, _, hr⟩ | ⟨_, _, _, _, hr⟩ <;> (rw [hr]; rfl)
  · intro h
    obtain ⟨m, hm⟩ := Option.isSome_iff_exists.mp h
    unfold Regex.FindSubmatch
    rw [hm]
    exact ⟨Nat.le_refl 2, rfl⟩
  · intro h
    obtain ⟨m, hm⟩ := Option.isSome_iff_exists.mp h
    unfold Regex.FindSubmatch
    rw [hm]
    exact ⟨Nat.le_refl 2, rfl⟩

theorem handleLogLine_total_witness :
    playerLeave.MatchString "ServerLobby: Bob disconnected" = true ∧
    2 ≤ (playerLeave.FindSubmatch "ServerLobby: Bob disconnected".toList).length ∧
    (submatch1 (playerLeave.FindSubmatch "ServerLobby: Bob disconnected".toList)).isSome
      = true :=
  ⟨by decide, (handleLogLine_total "ServerLobby: Bob disconnected").2.2 (by decide)⟩

/-! ## The retry loop -/

theorem retryLoop_done {T E : Type} (tailFile : Nat → T × Option E) (i : Nat)
    (st : LoopState T E) (hi : ¬ i < 10) : retryLoop tailFile i st = st := by
  rw [retryLoop, if_neg hi]

theorem retryLoop_step_ok {T E : Type} (tailFile : Nat → T × Option E) (i : Nat)
    (st : LoopState T E) (hi : i < 10) (hok : (tailFile st.attempts).2 = none) :
    retryLoop tailFile i st = ⟨(tailFile st.attempts).1, none, st.attempts + 1⟩ := by
  rw [retryLoop, if_pos hi]
  simp [hok]

theorem retryLoop_step_err {T E : Type} (tailFile : Nat → T × Option E) (i : Nat)
    (st : LoopState T E) (hi : i < 10) (herr : (tailFile st.attempts).2 ≠ none) :
    retryLoop tailFile i st = retryLoop tailFile (i + 1)
      ⟨(tailFile st.attempts).1, (tailFile st.attempts).2, st.attempts + 1⟩ := by
  rw [retryLoop, if_pos hi]
  have hs : (tailFile st.attempts).2.isSome = true := by
    cases h : (tailFile st.attempts).2 with
    | none => exact absurd h herr
    | some e => rfl
  simp [hs]

/-- The loop stops at the first attempt without error. -/
theorem retryLoop_first_success {T E : Type} (tailFile : Nat → T × Option E) (n : Nat)
    (hn : n < 10) (hok : (tailFile n).2 = none) :
    ∀ (j i : Nat) (st : LoopState T E), i + j = n → st.attempts = i →
      (∀ k, i ≤ k → k < n → (tailFile k).2 ≠ none) →
      retryLoop tailFile i st = ⟨(tailFile n).1, none, n + 1⟩ := by
  intro j
  induction j with
  | zero =>
    intro i st hij hatt _
    have hin : i = n := by omega
    have hatt1 : st.attempts = n := by rw [hatt, hin]
    rw [retryLoop_step_ok tailFile i st (by omega) (by rw [hatt1]; exact hok), hatt1]
  | succ j ih =>
    intro i st hij hatt hfail
    have herr : (tailFile st.attempts).2 ≠ none := by
      rw [hatt]; exact hfail i (Nat.le_refl i) (by omega)
    rw [retryLoop_step_err tailFile i st (by omega) herr]
    apply ih (i + 1) _ (by omega) (by simp [hatt])
    intro k hk hkn
    exact hfail k (by omega) hkn

/-- The loop ends with an error only after every remaining attempt has failed, and it has
then used up the counter. -/
theorem retryLoop_error {T E : Type} (tailFile : Nat → T × Option E) :
    ∀ (d i : Nat) (st : LoopState T E), i + d = 10 → 0 < d → st.attempts = i →
      (retryLoop tailFile i st).err ≠ none →
      (∀ k, i ≤ k → k < 10 → (tailFile k).2 ≠ none) ∧
        (retryLoop tailFile i st).attempts = 10 := by
  intro d
  induction d with
  | zero => intro i st _ hd; omega
  | succ d ih =>
    intro i st hid _ hatt hres
    by_cases hok : (tailFile st.attempts).2 = none
    · rw [retryLoop_step_ok tailFile i st (by omega) hok] at hres
      exact absurd rfl hres
    · rw [retryLoop_step_err tailFile i st (by omega) hok] at hres ⊢
      by_cases hd0 : d = 0
      · have hi9 : i = 9 := by omega
        rw [retryLoop_done tailFile (i + 1) _ (by omega)]
        refine ⟨?_, by simp [hatt, hi9]⟩
        intro k hk hk10
        have hki : k = i := by omega
        rw [hki, ← hatt]; exact hok
      · obtain ⟨hall, hcount⟩ := ih (i + 1) _ (by omega) (by omega) (by simp [hatt]) hres
        refine ⟨?_, hcount⟩
        intro k hk hk10
        by_cases hki : k = i
        · rw [hki, ← hatt]; exact hok
        · exact hall k (by omega) hk10

/-- The loop never makes more attempts than the counter allows. -/
theorem retryLoop_attempts_le {T E : Type} (tailFile : Nat → T × Option E) :
    ∀ (d i : Nat) (st : LoopState T E), i + d = 10 → st.attempts = i →
      (retryLoop tailFile i st).attempts ≤ 10 := by
  intro d
  induction d with
  | zero =>
    intro i st hid hatt
    rw [retryLoop_done tailFile i st (by omega)]
    omega
  | succ d ih =>
    intro i st hid hatt
    by_cases hok : (tailFile st.attempts).2 = none
    · rw [retryLoop_step_ok tailFile i st (by omega) hok]
      simp only
      omega
    · rw [retryLoop_step_err tailFile i st (by omega) hok]
      exact ih (i + 1) _ (by omega) (by simp [hatt])

/-- C10: with the attempts to open the log file given by an arbitrary sequence of outcomes,
taken in order, the retry loop makes at most 10 attempts; if the first attempt without error
is attempt `n + 1` with `n < 10`, the loop ends after exactly `n + 1` attempts with the tail
of that attempt and no error; and it ends with an error only if all 10 attempts failed (and
then after exactly 10 attempts). -/
theorem openLog_spec {T E : Type} (tailFile : Nat → T × Option E) (emptyTail : T) :
    (openLog tailFile emptyTail).attempts ≤ 10 ∧
    (∀ n, n < 10 → (tailFile n).2 = none → (∀ k, k < n → (tailFile k).2 ≠ none) →
      openLog tailFile emptyTail = ⟨(tailFile n).1, none, n + 1⟩) ∧
    ((openLog tailFile emptyTail).err ≠ none →
      (∀ k, k < 10 → (tailFile k).2 ≠ none) ∧ (openLog tailFile emptyTail).attempts = 10) := by
  refine ⟨?_, ?_, ?_⟩
  · exact retryLoop_attempts_le tailFile 10 0 _ rfl rfl
  · intro n hn hok hfail
    exact retryLoop_first_success tailFile n hn hok n 0 _ (by omega) rfl
      (fun k _ hk => hfail k hk)
  · intro h
    obtain ⟨hall, hcount⟩ := retryLoop_error tailFile 10 0 _ rfl (by omega) rfl h
    exact ⟨fun k hk => hall k (Nat.zero_le k) hk, hcount⟩

/-- Three failed attempts followed by a success: the outcome sequence of the witness. -/
theorem openLog_spec_witness :
    (∀ k, k < 3 → ((fun k : Nat => if k < 3 then ((0 : Nat), some "no such file")
        else (k, (none : Option String))) k).2 ≠ none) ∧
    openLog (fun k : Nat => if k < 3 then ((0 : Nat), some "no such file")
        else (k, (none : Option String))) 0
      = ⟨3, none, 4⟩ :=
  ⟨by decide,
    (openLog_spec (fun k : Nat => if k < 3 then ((0 : Nat), some "no such file")
        else (k, (none : Option String))) 0).2.1 3 (by decide) (by decide) (by decide)⟩

/-! ## Further claims on the patterns -/

theorem withOnlineId_chars : " with online id ".toList
    = [' ', 'w', 'i', 't', 'h', ' ', 'o', 'n', 'l', 'i', 'n', 'e', ' ', 'i', 'd', ' '] := by
  decide

theorem joinTail_of_digits_cons (oid : List Char) (hne : oid ≠ [])
    (hdig : ∀ c ∈ oid, '0' ≤ c ∧ c ≤ '9') : joinTail (" with online id ".toList ++ oid) := by
  cases oid with
  | nil => exact absurd rfl hne
  | cons d tl =>
    refine ⟨d, tl, rfl, ?_⟩
    have hd := hdig d (List.mem_cons_self _ _)
    simp [digit, CharSet.test, hd.1, hd.2]

/-- After `" with online id "` and a run of digits of any length, no later position starts
with `" with online id "` and a digit. -/
theorem no_later_joinTail_of_digits (oid : List Char) (hdig : ∀ c ∈ oid, '0' ≤ c ∧ c ≤ '9')
    (u v : List Char) (huv : " with online id ".toList ++ oid = u ++ v) (hu : u ≠ []) :
    ¬ joinTail v := by
  rintro ⟨d, tl, rfl, _⟩
  have hw : ¬ ('0' ≤ 'w' ∧ 'w' ≤ '9') := by decide
  have hsp : ¬ ('0' ≤ ' ' ∧ ' ' ≤ '9') := by decide
  rcases List.append_eq_append_iff.mp huv with ⟨a, _, hoid⟩ | ⟨c, hJ, hv⟩
  · apply hsp
    apply hdig
    rw [hoid, withOnlineId_chars]
    simp
  · have hlen := congrArg List.length hJ
    rw [withOnlineId_chars] at hlen
    simp only [List.length_append, List.length_cons, List.length_nil] at hlen
    have hpos : 0 < u.length := List.length_pos.mpr hu
    have hc : c = (" with online id ".toList).drop u.length := by
      rw [hJ]; simp
    obtain ⟨k, hk⟩ : ∃ k, u.length = k := ⟨_, rfl⟩
    rw [hk] at hc hpos hlen
    have hk16 : k ≤ 16 := by omega
    rw [withOnlineId_chars] at hc hv
    interval_cases k <;> simp at hc <;> subst hc <;> simp at hv
    · apply hw
      apply hdig
      rw [← hv]
      simp
    · apply hsp
      apply hdig
      rw [← hv]
      simp

theorem handleLogLine_join_inv (line : String) (name : Option String)
    (h : handleLogLine line = some ("PLAYERJOIN", name)) :
    serverStart.MatchString line = false ∧
      ∃ m, playerJoin.find line.toList = some m ∧ name = some (String.mk (m.2.getD [])) := by
  rcases handleLogLine_cases line with ⟨_, hr⟩ | ⟨h0, m, hm, hr⟩ | ⟨_, _, m, _, hr⟩ |
    ⟨_, _, _, _, hr⟩ | ⟨_, _, _, _, hr⟩
  · rw [hr] at h; exact absurd h (result_ne_of_tag_ne (by decide))
  · rw [hr] at h
    simp only [Option.some.injEq, Prod.mk.injEq, true_and] at h
    exact ⟨h0, m, hm, h.symm⟩
  · rw [hr] at h; exact absurd h (result_ne_of_tag_ne (by decide))
  · rw [hr] at h; exact absurd h (result_ne_of_tag_ne (by decide))
  · rw [hr] at h; exact absurd h (result_ne_of_tag_ne (by decide))

theorem handleLogLine_leave_inv (line : String) (name : Option String)
    (h : handleLogLine line = some ("PLAYERLEAVE", name)) :
    serverStart.MatchString line = false ∧ playerJoin.MatchString line = false ∧
      ∃ m, playerLeave.find line.toList = some m ∧ name = some (String.mk (m.2.getD [])) := by
  rcases handleLogLine_cases line with ⟨_, hr⟩ | ⟨_, m, _, hr⟩ | ⟨h0, h1, m, hm, hr⟩ |
    ⟨_, _, _, _, hr⟩ | ⟨_, _, _, _, hr⟩
  · rw [hr] at h; exact absurd h (result_ne_of_tag_ne (by decide))
  · rw [hr] at h; exact absurd h (result_ne_of_tag_ne (by decide))
  · rw [hr] at h
    simp only [Option.some.injEq, Prod.mk.injEq, true_and] at h
    exact ⟨h0, h1, m, hm, h.symm⟩
  · rw [hr] at h; exact absurd h (result_ne_of_tag_ne (by decide))
  · rw [hr] at h; exact absurd h (result_ne_of_tag_ne (by decide))

theorem handleLogLine_shutdown_inv (line : String) (name : Option String)
    (h : handleLogLine line = some ("SHUTDOWN", name)) :
    serverStart.MatchString line = false ∧ noMorePlayers.MatchString line = true ∧
      name = none := by
  rcases handleLogLine_cases line with ⟨_, hr⟩ | ⟨_, m, _, hr⟩ | ⟨_, _, m, _, hr⟩ |
    ⟨h0, _, _, h3, hr⟩ | ⟨_, _, _, _, hr⟩
  · rw [hr] at h; exact absurd h (result_ne_of_tag_ne (by decide))
  · rw [hr] at h; exact absurd h (result_ne_of_tag_ne (by decide))
  · rw [hr] at h; exact absurd h (result_ne_of_tag_ne (by decide))
  · rw [hr] at h
    simp only [Option.some.injEq, Prod.mk.injEq, true_and] at h
    exact ⟨h0, h3, h.symm⟩
  · rw [hr] at h; exact absurd h (result_ne_of_tag_ne (by decide))

theorem not_contains_of_matchString_false (line : String)
    (h : serverStart.MatchString line = false) :
    ¬ Contains line "Listening has been started" := by
  intro hc
  rw [(serverStart_matchString_iff line).mpr hc] at h
  exact absurd h (by decide)

theorem digit_test_iff (d : Char) : digit.test d = true ↔ '0' ≤ d ∧ d ≤ '9' := by
  simp [digit, CharSet.test]

/-- C12, as stated, fails: the id `123` has three digits and the line is classified as
`PLAYERJOIN`. -/
theorem handleLogLine_three_digit_id :
    "123".length = 3 ∧ (∀ c ∈ "123".toList, '0' ≤ c ∧ c ≤ '9') ∧
    "ServerLobby: New player " ++ "Alice" ++ " with online id " ++ "123"
      = "ServerLobby: New player Alice with online id 123" ∧
    handleLogLine "ServerLobby: New player Alice with online id 123"
      = some ("PLAYERJOIN", some "Alice") := by
  decide

/-- C12, amended: `handleLogLine` classifies a line as `PLAYERJOIN` only when a decimal digit
follows `" with online id "`, and the number of digits is not limited: for a non-empty,
newline-free name and an id of one or more decimal digits (three or more included), the line
`"ServerLobby: New player " ++ name ++ " with online id " ++ id`, if it has no ready marker,
is classified as `PLAYERJOIN` with that name. -/
theorem handleLogLine_join_any_id :
    (∀ line name : String, handleLogLine line = some ("PLAYERJOIN", some name) →
      ∃ (pre rest : String) (d : Char),
        line = pre ++ "ServerLobby: New player " ++ name ++ " with online id " ++ rest ∧
        rest.toList.head? = some d ∧ '0' ≤ d ∧ d ≤ '9') ∧
    (∀ name oid : String, name ≠ "" → '\n' ∉ name.toList → oid ≠ "" →
      (∀ c ∈ oid.toList, '0' ≤ c ∧ c ≤ '9') →
      ¬ Contains ("ServerLobby: New player " ++ name ++ " with online id " ++ oid)
        "Listening has been started" →
      handleLogLine ("ServerLobby: New player " ++ name ++ " with online id " ++ oid)
        = some ("PLAYERJOIN", some name)) := by
  constructor
  · intro line name h
    obtain ⟨_, m, hm, hname⟩ := handleLogLine_join_inv line _ h
    obtain ⟨pre, nm, rest, hsplit, _, _, ⟨d, tl, hrest, hd⟩, hcap⟩ :=
      playerJoin_find_sound _ _ hm
    rw [hcap] at hname
    simp only [Option.some.injEq, Option.getD_some] at hname
    refine ⟨String.mk pre, String.mk (d :: tl), d, String.ext ?_, rfl,
      (digit_test_iff d).mp hd⟩
    rw [hname]
    simp only [String.data_append]
    rw [show line.data = line.toList from rfl, hsplit, hrest]
    simp [String.toList]
  · intro name oid hname hnl hoid hdig hready
    have h0 := serverStart_matchString_false _ hready
    have hne : name.toList ≠ [] := by
      intro h
      exact hname (String.toList_inj.mp (by rw [h]; rfl))
    have hone : oid.toList ≠ [] := by
      intro h
      exact hoid (String.toList_inj.mp (by rw [h]; rfl))
    obtain ⟨m, hm⟩ := matchAt_capture_longest "ServerLobby: New player ".toList .anyNotNL _
      joinTail tailSpec_join name.toList (" with online id ".toList ++ oid.toList) hne
      ((all_anyNotNL _).mpr hnl) (joinTail_of_digits_cons _ hone hdig)
      (fun u v huv hu _ => no_later_joinTail_of_digits _ hdig u v huv hu)
    have hline : ("ServerLobby: New player " ++ name ++ " with online id " ++ oid).toList
        = "ServerLobby: New player ".toList ++ name.toList
          ++ (" with online id ".toList ++ oid.toList) := by
      simp [String.toList]
    have hfind : playerJoin.find
        ("ServerLobby: New player " ++ name ++ " with online id " ++ oid).toList
        = some (m, some name.toList) := by
      rw [hline]
      exact find_of_matchAt _ _ _ hm
    rw [handleLogLine_join _ _ h0 hfind]
    rfl

theorem handleLogLine_join_any_id_witness :
    "Alice" ≠ "" ∧ '\n' ∉ "Alice".toList ∧ "123" ≠ "" ∧
    (∀ c ∈ "123".toList, '0' ≤ c ∧ c ≤ '9') ∧
    ¬ Contains "ServerLobby: New player Alice with online id 123"
      "Listening has been started" ∧
    handleLogLine "ServerLobby: New player Alice with online id 123"
      = some ("PLAYERJOIN", some "Alice") :=
  ⟨by decide, by decide, by decide, by decide, by decide,
    handleLogLine_join_any_id.2 "Alice" "123" (by decide) (by decide) (by decide) (by decide)
      (by decide)⟩

/-- C13: a line classified as `SHUTDOWN` ends with `"There are now 0 peers."`, has `"STKHost"`
before that ending with at least one character in between, and does not contain the ready
marker; no name is returned.  A zero-peers message without the `STKHost` tag and a message
with another peer count yield the empty tag. -/
theorem handleLogLine_shutdown_only :
    (∀ (line : String) (name : Option String),
      handleLogLine line = some ("SHUTDOWN", name) →
        name = none ∧
        (∃ pre sep : String, sep ≠ "" ∧
          line = pre ++ "STKHost" ++ sep ++ "There are now 0 peers.") ∧
        ¬ Contains line "Listening has been started") ∧
    handleLogLine "There are now 0 peers." = some ("", none) ∧
    handleLogLine "STKHost: There are now 10 peers." = some ("", none) := by
  refine ⟨?_, by decide, by decide⟩
  intro line name h
  obtain ⟨h0, h3, hname⟩ := handleLogLine_shutdown_inv line name h
  obtain ⟨pre, t, hsplit, ht, _⟩ := (noMorePlayers_find_isSome_iff _).mp h3
  refine ⟨hname, ⟨String.mk pre, String.mk t, string_ne_empty_of_data t ht, String.ext ?_⟩,
    not_contains_of_matchString_false line h0⟩
  simp only [String.data_append]
  rw [show line.data = line.toList from rfl, hsplit]
  simp [String.toList]

theorem handleLogLine_shutdown_only_witness :
    handleLogLine "STKHost: There are now 0 peers." = some ("SHUTDOWN", none) ∧
    (∃ pre sep : String, sep ≠ "" ∧
      "STKHost: There are now 0 peers." = pre ++ "STKHost" ++ sep ++ "There are now 0 peers.") ∧
    ¬ Contains "STKHost: There are now 0 peers." "Listening has been started" :=
  ⟨by decide,
    (handleLogLine_shutdown_only.1 "STKHost: There are now 0 peers." none (by decide)).2⟩

/-- C14: a line classified as `PLAYERLEAVE` ends with `" disconnected"`; lines with text
after `disconnected`, such as `"ServerLobby: Bob disconnected."` and
`"ServerLobby: Bob disconnected from server"`, are not classified as `PLAYERLEAVE`. -/
theorem handleLogLine_leave_only :
    (∀ (line : String) (name : Option String),
      handleLogLine line = some ("PLAYERLEAVE", name) →
        ∃ front : String, line = front ++ " disconnected") ∧
    handleLogLine "ServerLobby: Bob disconnected." = some ("", none) ∧
    handleLogLine "ServerLobby: Bob disconnected from server" = some ("", none) := by
  refine ⟨?_, by decide, by decide⟩
  intro line name h
  obtain ⟨_, _, m, hm, _⟩ := handleLogLine_leave_inv line name h
  obtain ⟨pre, nm, hsplit, _⟩ := playerLeave_find_sound _ _ hm
  refine ⟨String.mk (pre ++ "ServerLobby: ".toList ++ nm), String.ext ?_⟩
  simp only [String.data_append]
  rw [show line.data = line.toList from rfl, hsplit]
  simp [String.toList]

theorem handleLogLine_leave_only_witness :
    handleLogLine "ServerLobby: Bob disconnected" = some ("PLAYERLEAVE", some "Bob") ∧
    ∃ front : String, "ServerLobby: Bob disconnected" = front ++ " disconnected" :=
  ⟨by decide,
    handleLogLine_leave_only.1 "ServerLobby: Bob disconnected" (some "Bob") (by decide)⟩

/-- Starting positions without a match are skipped by the search. -/
theorem find_append_of_none (r : Regex) (suf : List Char) :
    ∀ pre : List Char,
      (∀ p1 p2, pre = p1 ++ p2 → p2 ≠ [] → r.matchAt (p2 ++ suf) = none) →
      r.find (pre ++ suf) = r.find suf := by
  intro pre
  induction pre with
  | nil => intro _; rfl
  | cons c pre ih =>
    intro h
    have hhead : r.matchAt (c :: (pre ++ suf)) = none :=
      h [] (c :: pre) rfl (by simp)
    have hrest : r.find (pre ++ suf) = r.find suf := by
      apply ih
      intro p1 p2 hp hp2
      exact h (c :: p1) p2 (by rw [hp]; rfl) hp2
    show r.find (c :: (pre ++ suf)) = r.find suf
    simp only [Regex.find, hhead]
    exact hrest

theorem append_split_of_le {a b c d : List Char} (h : a ++ b = c ++ d)
    (hl : a.length ≤ c.length) : ∃ e, c = a ++ e ∧ b = e ++ d := by
  rcases List.append_eq_append_iff.mp h with ⟨e, hc, hb⟩ | ⟨e, ha, hd⟩
  · exact ⟨e, hc, hb⟩
  · have hlen := congrArg List.length ha
    rw [List.length_append] at hlen
    have he : e = [] := List.length_eq_zero.mp (by omega)
    subst he
    refine ⟨[], ?_, ?_⟩
    · simpa using ha.symm
    · simpa using hd.symm

theorem playerJoin_contains_newPlayer (line : String) (h : playerJoin.MatchString line = true) :
    Contains line "ServerLobby: New player " := by
  obtain ⟨m, hm⟩ := Option.isSome_iff_exists.mp h
  obtain ⟨pre, name, rest, hsplit, _⟩ := playerJoin_find_sound _ _ hm
  refine ⟨pre, name ++ rest, ?_⟩
  rw [hsplit]
  simp only [List.append_assoc]

/-- C15: in a line `p ++ "ServerLobby: " ++ name ++ " disconnected"`, with `name` non-empty and
free of newlines, in which no occurrence of `"ServerLobby: "` starts before the end of `p`, and
which contains neither the ready marker nor `"ServerLobby: New player "`, the classification
is `PLAYERLEAVE` with exactly `name`. -/
theorem handleLogLine_leave_prefixed (p name : String)
    (hname : name ≠ "") (hnl : '\n' ∉ name.toList)
    (hfirst : ∀ q r : String,
      p ++ "ServerLobby: " ++ name ++ " disconnected" = q ++ "ServerLobby: " ++ r →
      p.length ≤ q.length)
    (hready : ¬ Contains (p ++ "ServerLobby: " ++ name ++ " disconnected")
      "Listening has been started")
    (hnew : ¬ Contains (p ++ "ServerLobby: " ++ name ++ " disconnected")
      "ServerLobby: New player ") :
    handleLogLine (p ++ "ServerLobby: " ++ name ++ " disconnected")
      = some ("PLAYERLEAVE", some name) := by
  have h0 := serverStart_matchString_false _ hready
  have h1 := matchString_false_of_not _ _ _ (playerJoin_contains_newPlayer _) hnew
  have hne : name.toList ≠ [] := by
    intro h
    exact hname (String.toList_inj.mp (by rw [h]; rfl))
  obtain ⟨m, hm⟩ := matchAt_capture_longest "ServerLobby: ".toList .anyNotNL _
    _ (tailSpec_literal_end " disconnected".toList) name.toList " disconnected".toList hne
    ((all_anyNotNL _).mpr hnl) rfl
    (by
      intro u v huv hu _ hv
      have hl := congrArg List.length huv
      rw [hv, List.length_append] at hl
      have hu1 : 0 < u.length := List.length_pos.mpr hu
      omega)
  have hline : (p ++ "ServerLobby: " ++ name ++ " disconnected").toList
      = p.toList ++ ("ServerLobby: ".toList ++ name.toList ++ " disconnected".toList) := by
    simp [String.toList]
  have hskip : ∀ p1 p2, p.toList = p1 ++ p2 → p2 ≠ [] →
      playerLeave.matchAt
        (p2 ++ ("ServerLobby: ".toList ++ name.toList ++ " disconnected".toList)) = none := by
    intro p1 p2 hp hp2
    cases hmatch : playerLeave.matchAt
        (p2 ++ ("ServerLobby: ".toList ++ name.toList ++ " disconnected".toList)) with
    | none => rfl
    | some m1 =>
      exfalso
      obtain ⟨nm, rest, hsuf, _⟩ := matchAt_capture_sound _ _ _ _
        (tailSpec_literal_end " disconnected".toList) _ m1 hmatch
      have hlist : p.toList ++ ("ServerLobby: ".toList ++ name.toList ++ " disconnected".toList)
          = p1 ++ "ServerLobby: ".toList ++ (nm ++ rest) := by
        rw [hp, List.append_assoc p1 p2, hsuf]
        simp only [List.append_assoc]
      have hle := hfirst (String.mk p1) (String.mk (nm ++ rest)) (by
        apply String.ext
        show (p ++ "ServerLobby: " ++ name ++ " disconnected").toList = _
        rw [hline, hlist]
        simp)
      have hplen : p.length = p1.length + p2.length := by
        rw [show p.length = p.toList.length from rfl, hp, List.length_append]
      have hp2pos : 0 < p2.length := List.length_pos.mpr hp2
      have hq : (String.mk p1).length = p1.length := rfl
      omega
  have hfind : playerLeave.find (p ++ "ServerLobby: " ++ name ++ " disconnected").toList
      = some (m, some name.toList) := by
    rw [hline, find_append_of_none _ _ _ hskip]
    exact find_of_matchAt _ _ _ hm
  rw [handleLogLine_leave _ _ h0 h1 hfind]
  rfl

/-- A decidable way to say that no occurrence of `sub` in `line` starts before position `n`. -/
theorem occurrence_after_of_drop (line sub : String) (n : Nat)
    (h : ∀ k, k < n → ¬ (sub.toList <+: line.toList.drop k)) :
    ∀ q r : String, line = q ++ sub ++ r → n ≤ q.length := by
  intro q r hl
  by_contra hlt
  apply h q.length (by omega)
  have hdata : line.toList = q.toList ++ (sub.toList ++ r.toList) := by
    rw [hl]; simp [String.toList]
  rw [hdata, show q.length = q.toList.length from rfl, List.drop_left]
  exact List.prefix_append _ _

theorem handleLogLine_leave_prefixed_witness :
    "Bob" ≠ "" ∧ '\n' ∉ "Bob".toList ∧
    ¬ Contains "[info] ServerLobby: Bob disconnected" "Listening has been started" ∧
    ¬ Contains "[info] ServerLobby: Bob disconnected" "ServerLobby: New player " ∧
    handleLogLine ("[info] " ++ "ServerLobby: " ++ "Bob" ++ " disconnected")
      = some ("PLAYERLEAVE", some "Bob") :=
  ⟨by decide, by decide, by decide, by decide,
    handleLogLine_leave_prefixed "[info] " "Bob" (by decide) (by decide)
      (occurrence_after_of_drop _ _ _ (by decide)) (by decide) (by decide)⟩

theorem not_mem_of_append_left {c : Char} {a b l : List Char} (h : l = a ++ b)
    (hc : c ∉ l) : c ∉ a := by
  intro ha
  exact hc (by rw [h]; exact List.mem_append_left _ ha)

theorem not_mem_of_append_right {c : Char} {a b l : List Char} (h : l = a ++ b)
    (hc : c ∉ l) : c ∉ b := by
  intro hb
  exact hc (by rw [h]; exact List.mem_append_right _ hb)

/-- What the player-join search finds in a line without newlines: the match starts at the
first occurrence of `"ServerLobby: New player "` and the capture ends at the last position
that is followed by `" with online id "` and a digit. -/
theorem playerJoin_find_greedy (inp : List Char) (m : Submatch) (hnl : '\n' ∉ inp)
    (h : playerJoin.find inp = some m) :
    ∃ pre name rest, inp = pre ++ "ServerLobby: New player ".toList ++ name ++ rest ∧
      joinTail rest ∧ m.2 = some name ∧
      (∀ q r, inp = q ++ "ServerLobby: New player ".toList ++ r → pre.length ≤ q.length) ∧
      (∀ q r, inp = q ++ r → joinTail r →
        q.length ≤ (pre ++ "ServerLobby: New player ".toList ++ name).length) := by
  obtain ⟨pre, suf, hsplit, hmatch, hleft⟩ := find_eq_some _ _ _ h
  obtain ⟨name, rest, hsuf, hne, _, hP, hcap, hmax⟩ :=
    matchAt_capture_sound _ _ _ joinTail tailSpec_join suf m hmatch
  have hinp : inp = pre ++ "ServerLobby: New player ".toList ++ name ++ rest := by
    rw [hsplit, hsuf]; simp only [List.append_assoc]
  refine ⟨pre, name, rest, hinp, hP, hcap, ?_, ?_⟩
  · intro q r hq
    by_contra hlt
    have hlt1 : q.length ≤ pre.length := by omega
    have heq : q ++ ("ServerLobby: New player ".toList ++ r) = pre ++ suf := by
      rw [← hsplit, hq]; simp only [List.append_assoc]
    obtain ⟨e, hpre, hr⟩ := append_split_of_le heq hlt1
    have he : e ≠ [] := by
      intro he0
      rw [he0, List.append_nil] at hpre
      rw [hpre] at hlt
      exact hlt (Nat.le_refl _)
    have hnone := hleft q e hpre he
    have heq2 : "ServerLobby: New player ".toList ++ r
        = (e ++ "ServerLobby: New player ".toList ++ name) ++ rest := by
      rw [hr, hsuf]; simp only [List.append_assoc]
    obtain ⟨t, ht, hrt⟩ := append_split_of_le heq2 (by
      simp only [List.length_append]; omega)
    have htne : t ≠ [] := by
      intro ht0
      rw [ht0, List.append_nil] at ht
      have hl := congrArg List.length ht
      simp only [List.length_append] at hl
      have hepos : 0 < e.length := List.length_pos.mpr he
      omega
    have hrnl : '\n' ∉ r := not_mem_of_append_right hq hnl
    have htnl : '\n' ∉ t := not_mem_of_append_left hrt hrnl
    have hsome := matchAt_capture_isSome "ServerLobby: New player ".toList .anyNotNL _
      joinTail tailSpec_join t rest htne ((all_anyNotNL t).mpr htnl) hP
    have hsame : e ++ suf = "ServerLobby: New player ".toList ++ t ++ rest := by
      rw [← hr, hrt]; simp only [List.append_assoc]
    rw [hsame] at hnone
    change (playerJoin.matchAt _).isSome = true at hsome
    rw [hnone] at hsome
    exact absurd hsome (by decide)
  · intro q r hq hjr
    by_contra hlt
    have hlt1 : (pre ++ "ServerLobby: New player ".toList ++ name).length ≤ q.length := by
      omega
    have heq : (pre ++ "ServerLobby: New player ".toList ++ name) ++ rest = q ++ r := by
      rw [← hinp, hq]
    obtain ⟨e, hqe, hrest⟩ := append_split_of_le heq hlt1
    have he : e ≠ [] := by
      intro he0
      rw [he0, List.append_nil] at hqe
      rw [hqe] at hlt
      exact hlt (Nat.le_refl _)
    have hqnl : '\n' ∉ q := not_mem_of_append_left hq hnl
    have henl : '\n' ∉ e := not_mem_of_append_right hqe hqnl
    exact hmax e r hrest he ((all_anyNotNL e).mpr henl) hjr

/-- C16: for a line without newlines and without the ready marker that is classified as
`PLAYERJOIN`, the name starts right after the first occurrence of
`"ServerLobby: New player "` and ends right before the last occurrence of
`" with online id "` followed by a digit; what follows the id plays no part. -/
theorem handleLogLine_join_greedy (line name : String)
    (hnl : '\n' ∉ line.toList)
    (_hready : ¬ Contains line "Listening has been started")
    (h : handleLogLine line = some ("PLAYERJOIN", some name)) :
    ∃ pre rest : String,
      line = pre ++ "ServerLobby: New player " ++ name ++ " with online id " ++ rest ∧
      (∃ d, rest.toList.head? = some d ∧ '0' ≤ d ∧ d ≤ '9') ∧
      (∀ q r : String, line = q ++ "ServerLobby: New player " ++ r → pre.length ≤ q.length) ∧
      (∀ (q r : String) (d : Char), line = q ++ " with online id " ++ r →
        r.toList.head? = some d → '0' ≤ d → d ≤ '9' →
        q.length ≤ (pre ++ "ServerLobby: New player " ++ name).length) := by
  obtain ⟨_, m, hm, hname⟩ := handleLogLine_join_inv line _ h
  obtain ⟨pre, nm, rest, hsplit, ⟨d, tl, hrest, hd⟩, hcap, hfirst, hlast⟩ :=
    playerJoin_find_greedy _ m hnl hm
  rw [hcap] at hname
  simp only [Option.some.injEq, Option.getD_some] at hname
  subst hname
  refine ⟨String.mk pre, String.mk (d :: tl), String.ext ?_, ⟨d, rfl, (digit_test_iff d).mp hd⟩,
    ?_, ?_⟩
  · simp only [String.data_append]
    rw [show line.data = line.toList from rfl, hsplit, hrest]
    simp [String.toList]
  · intro q r hq
    apply hfirst q.toList r.toList
    rw [hq]
    simp [String.toList]
  · intro q r d1 hq hr hd0 hd9
    have hrd : ∃ tl1, r.toList = d1 :: tl1 := by
      cases hrl : r.toList with
      | nil => rw [hrl] at hr; simp at hr
      | cons a tl1 =>
        rw [hrl] at hr
        simp only [List.head?_cons, Option.some.injEq] at hr
        exact ⟨tl1, by rw [hr]⟩
    obtain ⟨tl1, hrl⟩ := hrd
    have hj : joinTail (" with online id ".toList ++ r.toList) :=
      ⟨d1, tl1, by rw [hrl], (digit_test_iff d1).mpr ⟨hd0, hd9⟩⟩
    have hle := hlast q.toList (" with online id ".toList ++ r.toList)
      (by rw [hq]; simp [String.toList]) hj
    have hlen : (String.mk pre ++ "ServerLobby: New player " ++ String.mk nm).length
        = (pre ++ "ServerLobby: New player ".toList ++ nm).length := rfl
    rw [hlen]
    exact hle

set_option maxRecDepth 20000

theorem handleLogLine_join_greedy_witness :
    '\n' ∉ "ServerLobby: New player A with online id 5 with online id 7 from 10.0.0.1".toList ∧
    ¬ Contains "ServerLobby: New player A with online id 5 with online id 7 from 10.0.0.1"
      "Listening has been started" ∧
    handleLogLine "ServerLobby: New player A with online id 5 with online id 7 from 10.0.0.1"
      = some ("PLAYERJOIN", some "A with online id 5") ∧
    ∃ pre rest : String,
      "ServerLobby: New player A with online id 5 with online id 7 from 10.0.0.1"
        = pre ++ "ServerLobby: New player " ++ "A with online id 5" ++ " with online id "
          ++ rest ∧
      (∃ d, rest.toList.head? = some d ∧ '0' ≤ d ∧ d ≤ '9') ∧
      (∀ q r : String,
        "ServerLobby: New player A with online id 5 with online id 7 from 10.0.0.1"
          = q ++ "ServerLobby: New player " ++ r → pre.length ≤ q.length) ∧
      (∀ (q r : String) (d : Char),
        "ServerLobby: New player A with online id 5 with online id 7 from 10.0.0.1"
          = q ++ " with online id " ++ r →
        r.toList.head? = some d → '0' ≤ d → d ≤ '9' →
        q.length ≤ (pre ++ "ServerLobby: New player " ++ "A with online id 5").length) :=
  ⟨by decide, by decide, by decide,
    handleLogLine_join_greedy
      "ServerLobby: New player A with online id 5 with online id 7 from 10.0.0.1"
      "A with online id 5" (by decide) (by decide) (by decide)⟩

/-! ## `main`: the lines of the tail and the command line -/

/-- C11: the code does not do what the claim says.  With the log opened and the tail
delivering the line `"Listening has been started"`, `main` emits no event and only logs
`"tail ended"`, whereas classifying the lines in order gives the event `READY`. -/
theorem mainAfterLoop_no_event :
    (∀ lines : List String, mainAfterLoop lines = ([], ["tail ended"])) ∧
    (mainAfterLoop ["Listening has been started"]).1 = [] ∧
    specEvents ["Listening has been started"] = [("READY", none)] := by
  refine ⟨fun _ => rfl, rfl, by decide⟩

theorem splitLoop_length (s : List Char) :
    ∀ field : List Char, (splitLoop field s).length = s.count ' ' + 1 := by
  induction s with
  | nil => intro field; rfl
  | cons c cs ih =>
    intro field
    by_cases hc : c = ' '
    · subst hc
      simp [splitLoop, ih]
    · have hc1 : (c == ' ') = false := by simpa using hc
      simp [splitLoop, hc, ih, List.count_cons, hc1]

/-- C17: for every command string, `strings.Split` on a single space gives a non-empty list
(one field more than there are spaces), so `cmdString[0]` and `cmdString[1:]` are in range;
for the empty command string the command is `""` and there are no arguments. -/
theorem cmdString_nonempty (input : String) :
    cmdString input ≠ [] ∧
    (cmdString input).length = input.toList.count ' ' + 1 ∧
    (∃ command args, commandArgs input = some (command, args) ∧
      cmdString input = command :: args) ∧
    commandArgs "" = some ("", []) := by
  have hlen : (cmdString input).length = input.toList.count ' ' + 1 := by
    unfold cmdString
    rw [List.length_map, splitLoop_length]
  refine ⟨?_, hlen, ?_, by decide⟩
  · intro h
    rw [h] at hlen
    simp at hlen
  · cases hc : cmdString input with
    | nil => rw [hc] at hlen; simp at hlen
    | cons command args =>
      refine ⟨command, args, ?_, rfl⟩
      unfold commandArgs
      rw [hc]

end STK
